import Mathlib

/- Verification of the hard-disk simulation kernel of jellyfysh/HistoricDisks
   (src/Python/naive): periodic geometry, lattice builders, pair collision-time
   solvers, and the event-chain / molecular-dynamics scheduling loops.
   Python floats are modelled as real numbers; `math.inf` as the top element of
   `WithTop ℝ`; a Python list of disks is modelled as a function `ℕ → ℝ × ℝ`
   together with the disk count `n`. -/

noncomputable section

open Classical

/-- Python `p % b` on floats with `b > 0`: `p - b * ⌊p / b⌋`. -/
def pmod (p b : ℝ) : ℝ := p - b * (⌊p / b⌋ : ℝ)

/-- Function `correct_periodic_position` of `common.py`, specialised to two
dimensions: reduce each coordinate modulo the corresponding box side. -/
def correct_periodic_position (position box : ℝ × ℝ) : ℝ × ℝ :=
  (pmod position.1 box.1, pmod position.2 box.2)

/-- One component of `separation_vector` of `common.py`: wrap the raw
difference, then subtract the box side when the wrapped component exceeds half
that side. -/
def sep1 (d b : ℝ) : ℝ :=
  if b / 2 < pmod d b then pmod d b - b else pmod d b

/-- Function `separation_vector` of `common.py` (two dimensions). -/
def separation_vector (position_one position_two box : ℝ × ℝ) : ℝ × ℝ :=
  (sep1 (position_one.1 - position_two.1) box.1,
   sep1 (position_one.2 - position_two.2) box.2)

/-- Failure outcomes of the initial-configuration builders of `common.py`:
the `RuntimeError` raised by an explicit fit check, the `IndexError` raised by
`pos[-1]` on an empty list, and the `ZeroDivisionError` raised by
`box[0] / n_x` when `n_x = 0`. -/
inductive CreateError where
  | fitError
  | indexError
  | zeroDivError
  deriving DecidableEq

/-- Position written by `create_crystal` of `common.py` at flat index
`k = i * n_x + j` (row `i = k / n_x`, column `j = k % n_x`). -/
def crystalPt (n_x n_y : ℕ) (box : ℝ × ℝ) (k : ℕ) : ℝ × ℝ :=
  let i := k / n_x
  let j := k % n_x
  correct_periodic_position
    (box.1 / (n_x : ℝ) * (j : ℝ) + 0.5 * (box.1 / (n_x : ℝ)) * ((i % 2 : ℕ) : ℝ),
     (i : ℝ) * (box.2 / (n_y : ℝ))) box

/-- Function `create_crystal` of `common.py`: `distance_x = box[0] / n_x`
raises `ZeroDivisionError` for `n_x = 0`; then the fit check raises
`RuntimeError` when the within-row spacing is below `2 * sigma`; then
`distance_y = box[1] / n_y` raises `ZeroDivisionError` for `n_y = 0`;
otherwise the `n_x * n_y` disks are placed on the triangular lattice. -/
def create_crystal (n_x n_y : ℕ) (σ : ℝ) (box : ℝ × ℝ) :
    Except CreateError (List (ℝ × ℝ)) :=
  if n_x = 0 then .error .zeroDivError
  else if box.1 / (n_x : ℝ) < 2 * σ then .error .fitError
  else if n_y = 0 then .error .zeroDivError
  else .ok ((List.range (n_x * n_y)).map (crystalPt n_x n_y box))

/-- One iteration of the placement loop of `create_packed` of `common.py`:
from the previously placed position and the `filling_low` flag, compute the
next position and the new flag. -/
def packedNext (σ : ℝ) (box : ℝ × ℝ) (st : (ℝ × ℝ) × Bool) : (ℝ × ℝ) × Bool :=
  let displacement := 2.05 * σ
  if st.2 then
    if box.1 ≤ st.1.1 + displacement + 2 * σ then
      ((displacement / 2, st.1.2 + displacement * Real.sqrt 3 / 2), false)
    else
      ((st.1.1 + displacement, st.1.2), true)
  else
    if box.1 ≤ st.1.1 + displacement + 1 * σ then
      ((0, st.1.2 + displacement * Real.sqrt 3 / 2), true)
    else
      ((st.1.1 + displacement, st.1.2), false)

/-- Position of the `m`-th disk placed by `create_packed` (disk `0` sits at the
origin and the loop fills indices `1, …, n - 1` in order). -/
def packedPt (σ : ℝ) (box : ℝ × ℝ) (m : ℕ) : ℝ × ℝ :=
  ((packedNext σ box)^[m] ((0, 0), true)).1

/-- Function `create_packed` of `common.py`. Its final fit check reads
`pos[-1]`, which on an empty position list raises `IndexError`. -/
def create_packed (n : ℕ) (σ : ℝ) (box : ℝ × ℝ) :
    Except CreateError (List (ℝ × ℝ)) :=
  match ((List.range n).map (packedPt σ box)).getLast? with
  | none => .error .indexError
  | some last =>
      if box.2 ≤ last.2 then .error .fitError
      else .ok ((List.range n).map (packedPt σ box))

/-- Squared Euclidean norm of a two-dimensional vector, as computed inline by
the Python schedulers (`vel_sq`, `dist_sq`, …). -/
def normSq (v : ℝ × ℝ) : ℝ := v.1 ^ 2 + v.2 ^ 2

/-- Scalar product `scal` of a velocity with a separation vector, as computed
inline by the Python collision solvers. -/
def scalProd (v dx : ℝ × ℝ) : ℝ := v.1 * dx.1 + v.2 * dx.2

/-- Discriminant `upsilon` of the collision quadratic, as computed inline by
`find_event` of `ECMC_Newtonian.py` and `molecular_dynamics.py`. -/
def upsilonOf (v dx : ℝ × ℝ) (σ : ℝ) : ℝ :=
  scalProd v dx ^ 2 - normSq v * (normSq dx - 4 * σ ^ 2)

/-- The finite collision time `-(scal + sqrt(upsilon)) / vel_sq` returned by
the solvers in the colliding branch. -/
def tstarOf (v dx : ℝ × ℝ) (σ : ℝ) : ℝ :=
  -(scalProd v dx + Real.sqrt (upsilonOf v dx σ)) / normSq v

/-- Function `find_event` of `ECMC_Newtonian.py`: time at which the active disk
with velocity `vel_active` collides with the static target disk; `math.inf` is
modelled as the top element of `WithTop ℝ`. -/
def findEventNewtonian (pos_active pos_target vel_active : ℝ × ℝ) (σ : ℝ)
    (box : ℝ × ℝ) : WithTop ℝ :=
  let vel_sq := vel_active.1 ^ 2 + vel_active.2 ^ 2
  let pos_rel := separation_vector pos_active pos_target box
  let dist_sq := pos_rel.1 ^ 2 + pos_rel.2 ^ 2
  let scal := vel_active.1 * pos_rel.1 + vel_active.2 * pos_rel.2
  let upsilon := scal ^ 2 - vel_sq * (dist_sq - 4 * σ ^ 2)
  if 0 < upsilon ∧ scal < 0 then ((-(scal + Real.sqrt upsilon) / vel_sq : ℝ) : WithTop ℝ)
  else ⊤

/-- Function `find_event` of `molecular_dynamics.py`: collision time of two
moving disks, with the explicit zero-relative-velocity check. -/
def findEventMD (pos_i vel_i pos_j vel_j : ℝ × ℝ) (σ : ℝ) (box : ℝ × ℝ) :
    WithTop ℝ :=
  let vel_rel := (vel_i.1 - vel_j.1, vel_i.2 - vel_j.2)
  let vel_rel_sq := vel_rel.1 ^ 2 + vel_rel.2 ^ 2
  if vel_rel_sq = 0 then ⊤
  else
    let pos_rel := separation_vector pos_i pos_j box
    let pos_rel_sq := pos_rel.1 ^ 2 + pos_rel.2 ^ 2
    let scal := vel_rel.1 * pos_rel.1 + vel_rel.2 * pos_rel.2
    let upsilon := scal ^ 2 - vel_rel_sq * (pos_rel_sq - 4 * σ ^ 2)
    if 0 < upsilon ∧ scal < 0 then
      ((-(scal + Real.sqrt upsilon) / vel_rel_sq : ℝ) : WithTop ℝ)
    else ⊤

/-- Function `find_event` of `ECMC_forward.py`: the unit-velocity variant with
no division by the squared velocity. -/
def findEventForward (pos_active pos_target vel_active : ℝ × ℝ) (σ : ℝ)
    (box : ℝ × ℝ) : WithTop ℝ :=
  let pos_rel := separation_vector pos_active pos_target box
  let dist_sq := pos_rel.1 ^ 2 + pos_rel.2 ^ 2
  let scal := vel_active.1 * pos_rel.1 + vel_active.2 * pos_rel.2
  let upsilon := scal ^ 2 - (dist_sq - 4 * σ ^ 2)
  if 0 < upsilon ∧ scal < 0 then ((-(scal + Real.sqrt upsilon) : ℝ) : WithTop ℝ)
  else ⊤

/-- Squared center separation after the active disk has moved for time `t`
from minimum-image separation `dx` with velocity `v`. -/
def gapSq (dx v : ℝ × ℝ) (t : ℝ) : ℝ :=
  (dx.1 + t * v.1) ^ 2 + (dx.2 + t * v.2) ^ 2

/-- Elastic pair update of the Newtonian event-chain loop (`ECMC_Newtonian.py`
chain loop): project the relative velocity (target − active) onto the contact
normal `e = sep / (2 sigma)` and exchange that component between the two
disks. -/
def newtonianCollide (pos vel : ℕ → ℝ × ℝ) (active target : ℕ) (σ : ℝ)
    (box : ℝ × ℝ) : ℕ → ℝ × ℝ :=
  let sep := separation_vector (pos target) (pos active) box
  let e := (sep.1 / 2 / σ, sep.2 / 2 / σ)
  let dot := ((vel target).1 - (vel active).1) * e.1 +
    ((vel target).2 - (vel active).2) * e.2
  Function.update (Function.update vel active
      ((vel active).1 + e.1 * dot, (vel active).2 + e.2 * dot)) target
    ((vel target).1 - e.1 * dot, (vel target).2 - e.2 * dot)

/-- Elastic pair update of the molecular-dynamics loop
(`molecular_dynamics.py` main loop): exchange the component of the relative
velocity along the unit separation direction between disks `i` and `j`. -/
def mdCollide (pos vel : ℕ → ℝ × ℝ) (i j : ℕ) (box : ℝ × ℝ) : ℕ → ℝ × ℝ :=
  let delta_x := separation_vector (pos j) (pos i) box
  let delta_v := ((vel j).1 - (vel i).1, (vel j).2 - (vel i).2)
  let delta_x_norm := Real.sqrt (delta_x.1 ^ 2 + delta_x.2 ^ 2)
  let direction := (delta_x.1 / delta_x_norm, delta_x.2 / delta_x_norm)
  let dvd := delta_v.1 * direction.1 + delta_v.2 * direction.2
  Function.update (Function.update vel i
      ((vel i).1 + direction.1 * dvd, (vel i).2 + direction.2 * dvd)) j
    ((vel j).1 - direction.1 * dvd, (vel j).2 - direction.2 * dvd)

/-- Summed kinetic energy (unit mass, without the conventional factor 1/2) of
the first `n` disks. -/
def kineticEnergy (n : ℕ) (vel : ℕ → ℝ × ℝ) : ℝ :=
  ∑ i ∈ Finset.range n, ((vel i).1 ^ 2 + (vel i).2 ^ 2)

/-- Summed momentum (unit mass) of the first `n` disks. -/
def totalMomentum (n : ℕ) (vel : ℕ → ℝ × ℝ) : ℝ × ℝ :=
  (∑ i ∈ Finset.range n, (vel i).1, ∑ i ∈ Finset.range n, (vel i).2)

/-- Speed `sqrt(v_x^2 + v_y^2)` of a disk, as computed inline by the
schedulers. -/
def speed (v : ℝ × ℝ) : ℝ := Real.sqrt (v.1 ^ 2 + v.2 ^ 2)

/-- Interaction cutoff `min(box_x, box_y) / 2 - 2 sigma` shared by
`ECMC_Newtonian.py`, `ECMC_forward.py` and `molecular_dynamics.py`. -/
def cutoff (box : ℝ × ℝ) (σ : ℝ) : ℝ := min box.1 box.2 / 2 - 2 * σ

/-- Clamped horizon candidate `time_cutoff = min(chain_time, cutoff / |v|)` of
the Newtonian chain loop. -/
def timeCutoffN (chainTime : ℝ) (box : ℝ × ℝ) (σ : ℝ) (v : ℝ × ℝ) : ℝ :=
  min chainTime (cutoff box σ / speed v)

/-- State of one Newtonian event chain: positions, velocities, index of the
active disk, and the remaining chain time. -/
structure ChainState where
  pos : ℕ → ℝ × ℝ
  vel : ℕ → ℝ × ℝ
  active : ℕ
  chainTime : ℝ

/-- First element of a list minimising the key, scanned left to right with
strict comparison — the behaviour of Python `min(..., key=...)` on a head
element followed by the remaining list. -/
def firstMinBy {α : Type} (key : α → WithTop ℝ) : α → List α → α
  | x, [] => x
  | x, y :: ys => firstMinBy key (if key y < key x then y else x) ys

/-- Python `min(events, key=...)` over a non-empty candidate list; the default
is never used because the loops always append a horizon or chain-end
candidate. -/
def selectBy {α : Type} (key : α → WithTop ℝ) (default : α) : List α → α
  | [] => default
  | x :: xs => firstMinBy key x xs

/-- Candidate event list of the Newtonian chain loop: all pair collision times
of the active disk, followed by the clamped horizon candidate. -/
def newtonianEvents (n : ℕ) (σ : ℝ) (box : ℝ × ℝ) (st : ChainState) :
    List (ℕ × WithTop ℝ) :=
  ((List.range n).filter (fun target => target ≠ st.active)).map
    (fun target => (target,
      findEventNewtonian (st.pos st.active) (st.pos target) (st.vel st.active) σ box))
  ++ [(st.active, ((timeCutoffN st.chainTime box σ (st.vel st.active) : ℝ) : WithTop ℝ))]

/-- One iteration of the Newtonian chain loop: select the earliest event,
advance and re-wrap the active disk, decrement the remaining chain time and,
on a pair collision, apply the elastic update and transfer the active role.
Returns the new state together with the consumed event time (the selected
minimum is finite because the appended horizon candidate is). -/
def chainStepN (n : ℕ) (σ : ℝ) (box : ℝ × ℝ) (st : ChainState) : ChainState × ℝ :=
  let first_event := selectBy (fun e => e.2) (st.active, ⊤) (newtonianEvents n σ box st)
  let target := first_event.1
  let event_time := first_event.2.untop' 0
  let posMoved := Function.update st.pos st.active
    (correct_periodic_position
      ((st.pos st.active).1 + event_time * (st.vel st.active).1,
       (st.pos st.active).2 + event_time * (st.vel st.active).2) box)
  let vel' := if st.active = target then st.vel
    else newtonianCollide posMoved st.vel st.active target σ box
  let active' := if st.active = target then st.active else target
  ({ pos := posMoved, vel := vel', active := active',
     chainTime := st.chainTime - event_time }, event_time)

/-- Run of the Newtonian chain loop (`while chain_time > 0.0`) for at most
`fuel` iterations; returns the final state and the total consumed time. -/
def chainRunN (n : ℕ) (σ : ℝ) (box : ℝ × ℝ) : ℕ → ChainState → ChainState × ℝ
  | 0, st => (st, 0)
  | fuel + 1, st =>
    if 0 < st.chainTime then
      let step := chainStepN n σ box st
      let rest := chainRunN n σ box fuel step.1
      (rest.1, step.2 + rest.2)
    else (st, 0)

/-- Coordinate access `p[d]` in the straight event-chain scheduler (`d = 0`:
x-axis, otherwise y-axis). -/
def coordGet (p : ℝ × ℝ) (d : ℕ) : ℝ := if d = 0 then p.1 else p.2

/-- Coordinate update `p[d] = x` in the straight event-chain scheduler. -/
def coordSet (p : ℝ × ℝ) (d : ℕ) (x : ℝ) : ℝ × ℝ :=
  if d = 0 then (x, p.2) else (p.1, x)

/-- Closed form, for a positive box side, of the re-wrapping loop
`while pos > box: pos -= box` of `ECMC_straight.py`. -/
def wrapWhile (x L : ℝ) : ℝ := x - L * (⌈(x - L) / L⌉₊ : ℝ)

/-- Function `find_event` of `ECMC_straight.py`: time of flight of the active
disk moving with unit speed along axis `direction` until contact with the
target, together with the chord length `delta_x` at contact (zero when the
disks never collide). -/
def findEventStraight (pos_active pos_target : ℝ × ℝ) (direction : ℕ) (σ : ℝ)
    (box : ℝ × ℝ) : WithTop ℝ × ℝ :=
  let distance_perp0 :=
    |coordGet pos_target (1 - direction) - coordGet pos_active (1 - direction)|
  let distance_perp := min distance_perp0 (coordGet box (1 - direction) - distance_perp0)
  if 2 * σ ≤ distance_perp then (⊤, 0)
  else
    let distance_para0 := coordGet pos_target direction - coordGet pos_active direction
    if distance_para0 < 0 then
      let delta_x := Real.sqrt (4 * σ ^ 2 - distance_perp ^ 2)
      (((distance_para0 + coordGet box direction - delta_x : ℝ) : WithTop ℝ), delta_x)
    else if distance_para0 = 0 then (⊤, 0)
    else
      let delta_x := Real.sqrt (4 * σ ^ 2 - distance_perp ^ 2)
      (((distance_para0 - delta_x : ℝ) : WithTop ℝ), delta_x)

/-- State of one straight event chain: positions, active disk, remaining chain
time, and the chord-length accumulator for the current direction. -/
structure SState where
  pos : ℕ → ℝ × ℝ
  active : ℕ
  chainTime : ℝ
  sumDeltaX : ℝ

/-- Candidate event list of the straight chain loop: pair events plus the
chain-end candidate `(active, chain_time, 0.0)`. -/
def straightEvents (n : ℕ) (σ : ℝ) (box : ℝ × ℝ) (direction : ℕ) (st : SState) :
    List (ℕ × WithTop ℝ × ℝ) :=
  ((List.range n).filter (fun target => target ≠ st.active)).map
    (fun target => (target,
      findEventStraight (st.pos st.active) (st.pos target) direction σ box))
  ++ [(st.active, ((st.chainTime : ℝ) : WithTop ℝ), (0 : ℝ))]

/-- One iteration of the straight chain loop: select the earliest event, move
the active disk forward by `max(event_time, 0.0)` along the direction of
travel, re-wrap that coordinate, accumulate `delta_x`, transfer the active
role unconditionally and decrement the remaining chain time by the raw event
time. -/
def chainStepS (n : ℕ) (σ : ℝ) (box : ℝ × ℝ) (direction : ℕ) (st : SState) :
    SState × ℝ :=
  let first_event :=
    selectBy (fun e => e.2.1) (st.active, ⊤, 0) (straightEvents n σ box direction st)
  let target := first_event.1
  let event_time := first_event.2.1.untop' 0
  let delta_x := first_event.2.2
  let moved := coordSet (st.pos st.active) direction
    (wrapWhile (coordGet (st.pos st.active) direction + max event_time 0)
      (coordGet box direction))
  ({ pos := Function.update st.pos st.active moved,
     active := target,
     chainTime := st.chainTime - event_time,
     sumDeltaX := st.sumDeltaX + delta_x }, event_time)

/-- Run of the straight chain loop for at most `fuel` iterations; returns the
final state and the total consumed time. -/
def chainRunS (n : ℕ) (σ : ℝ) (box : ℝ × ℝ) (direction : ℕ) :
    ℕ → SState → SState × ℝ
  | 0, st => (st, 0)
  | fuel + 1, st =>
    if 0 < st.chainTime then
      let step := chainStepS n σ box direction st
      let rest := chainRunS n σ box direction fuel step.1
      (rest.1, step.2 + rest.2)
    else (st, 0)

/-- State of the molecular-dynamics loop: positions, velocities, the tracked
maximum speed, the time to the next sampling instant and the number of
pending samples. -/
structure MDState where
  pos : ℕ → ℝ × ℝ
  vel : ℕ → ℝ × ℝ
  velMax : ℝ
  timeToSample : ℝ
  sampleCount : ℕ

/-- Maximum disk speed, recomputed from scratch at each sampling event of
`molecular_dynamics.py`. -/
def maxSpeed (n : ℕ) (vel : ℕ → ℝ × ℝ) : ℝ :=
  ((List.range n).map (fun i => speed (vel i))).foldr max 0

/-- Candidate event list of the molecular-dynamics loop: all unordered pair
collision times, the horizon candidate `(-1, -1, cutoff / vel_max / 2)` and
the sampling candidate `(-2, -2, time_to_sample)`. -/
def mdEvents (n : ℕ) (σ : ℝ) (box : ℝ × ℝ) (st : MDState) :
    List (ℤ × ℤ × WithTop ℝ) :=
  ((List.range n).bind (fun i =>
    ((List.range n).filter (fun j => i < j)).map (fun (j : ℕ) =>
      ((i : ℤ), (j : ℤ),
        findEventMD (st.pos i) (st.vel i) (st.pos j) (st.vel j) σ box))))
  ++ [(-1, -1, ((cutoff box σ / st.velMax / 2 : ℝ) : WithTop ℝ)),
      (-2, -2, ((st.timeToSample : ℝ) : WithTop ℝ))]

/-- One iteration of the molecular-dynamics loop: select the earliest event,
advance and re-wrap all disk positions and branch: pair event — elastic
collision and running `vel_max` update; sampling event — reset the sampling
clock, recompute `vel_max` from scratch and decrement the sample counter;
horizon event — no velocity change. -/
def mdStep (n : ℕ) (σ : ℝ) (box : ℝ × ℝ) (sampleTime : ℝ) (st : MDState) :
    MDState :=
  let first_event := selectBy (fun e => e.2.2) (-1, -1, ⊤) (mdEvents n σ box st)
  let i := first_event.1
  let j := first_event.2.1
  let t := first_event.2.2.untop' 0
  let pos' := fun m => if m < n then
      correct_periodic_position
        ((st.pos m).1 + t * (st.vel m).1, (st.pos m).2 + t * (st.vel m).2) box
    else st.pos m
  if i ≠ j then
    let vel' := mdCollide pos' st.vel i.toNat j.toNat box
    { pos := pos', vel := vel',
      velMax := max st.velMax (max (speed (vel' i.toNat)) (speed (vel' j.toNat))),
      timeToSample := st.timeToSample - t, sampleCount := st.sampleCount }
  else if i = -2 then
    { pos := pos', vel := st.vel, velMax := maxSpeed n st.vel,
      timeToSample := sampleTime, sampleCount := st.sampleCount - 1 }
  else
    { pos := pos', vel := st.vel, velMax := st.velMax,
      timeToSample := st.timeToSample - t, sampleCount := st.sampleCount }

/-- Concrete one-disk Newtonian chain state used by witnesses. -/
def oneDiskN : ChainState :=
  { pos := fun _ => (0, 0), vel := fun _ => (1, 0), active := 0, chainTime := 1 }

/-- Concrete one-disk straight chain state used by witnesses. -/
def oneDiskS : SState :=
  { pos := fun _ => (0, 0), active := 0, chainTime := 1, sumDeltaX := 0 }

/-- Concrete one-disk molecular-dynamics state used by witnesses. -/
def oneDiskMD : MDState :=
  { pos := fun _ => (0, 0), vel := fun _ => (0, 0), velMax := 1, timeToSample := 2,
    sampleCount := 0 }

theorem pmod_nonneg {b : ℝ} (hb : 0 < b) (p : ℝ) : 0 ≤ pmod p b := by
  have h := Int.floor_le (p / b)
  have : b * (⌊p / b⌋ : ℝ) ≤ b * (p / b) := by
    exact mul_le_mul_of_nonneg_left h hb.le
  rw [mul_div_cancel₀ _ hb.ne'] at this
  simpa [pmod] using this

theorem pmod_lt {b : ℝ} (hb : 0 < b) (p : ℝ) : pmod p b < b := by
  have h := Int.lt_floor_add_one (p / b)
  have : b * (p / b) < b * ((⌊p / b⌋ : ℝ) + 1) := by
    exact mul_lt_mul_of_pos_left h hb
  rw [mul_div_cancel₀ _ hb.ne'] at this
  simp only [pmod]
  nlinarith

theorem pmod_eq_self {b p : ℝ} (hb : 0 < b) (h0 : 0 ≤ p) (h1 : p < b) :
    pmod p b = p := by
  have : ⌊p / b⌋ = 0 := by
    rw [Int.floor_eq_zero_iff]
    constructor
    · positivity
    · rw [div_lt_one hb]; exact h1
  simp [pmod, this]

theorem pmod_add_self {b p : ℝ} (hb : 0 < b) (h0 : -b ≤ p) (h1 : p < 0) :
    pmod p b = p + b := by
  have : ⌊p / b⌋ = -1 := by
    rw [Int.floor_eq_iff]
    constructor
    · push_cast
      rw [le_div_iff hb]
      nlinarith
    · push_cast
      have : p / b < 0 := div_neg_of_neg_of_pos h1 hb
      linarith
  simp only [pmod, this]
  push_cast
  ring

theorem sep1_abs_le {b : ℝ} (hb : 0 < b) (d : ℝ) : |sep1 d b| ≤ b / 2 := by
  have h0 := pmod_nonneg hb d
  have h1 := pmod_lt hb d
  unfold sep1
  split
  · rename_i h
    rw [abs_of_nonpos (by linarith)]
    linarith
  · rename_i h
    push_neg at h
    rw [abs_of_nonneg h0]
    exact h

theorem sep1_congruent (d b : ℝ) : ∃ m : ℤ, sep1 d b = d - b * (m : ℝ) := by
  unfold sep1
  split
  · exact ⟨⌊d / b⌋ + 1, by simp [pmod]; push_cast; ring⟩
  · exact ⟨⌊d / b⌋, by simp [pmod]⟩

theorem sep1_min_image {b : ℝ} (hb : 0 < b) (d : ℝ) (k : ℤ) :
    |sep1 d b| ≤ |d + (k : ℝ) * b| := by
  obtain ⟨m, hm⟩ := sep1_congruent d b
  have habs := sep1_abs_le hb d
  have hd : d + (k : ℝ) * b = sep1 d b + b * ((m + k : ℤ) : ℝ) := by
    rw [hm]; push_cast; ring
  rcases eq_or_ne (m + k) 0 with hz | hz
  · rw [hd, hz]
    simp
  · have h1 : (1 : ℝ) ≤ |((m + k : ℤ) : ℝ)| := by
      rw [← Int.cast_abs]
      exact_mod_cast Int.one_le_abs hz
    have h2 : b ≤ |b * ((m + k : ℤ) : ℝ)| := by
      rw [abs_mul, abs_of_pos hb]
      nlinarith
    have h3 : |b * ((m + k : ℤ) : ℝ)| - |sep1 d b| ≤ |sep1 d b + b * ((m + k : ℤ) : ℝ)| := by
      have := abs_add (-(sep1 d b)) (sep1 d b + b * ((m + k : ℤ) : ℝ))
      simp only [abs_neg] at this
      calc |b * ((m + k : ℤ) : ℝ)| - |sep1 d b|
          = |-(sep1 d b) + (sep1 d b + b * ((m + k : ℤ) : ℝ))| - |sep1 d b| := by ring_nf
        _ ≤ |sep1 d b| + |sep1 d b + b * ((m + k : ℤ) : ℝ)| - |sep1 d b| := by linarith
        _ = |sep1 d b + b * ((m + k : ℤ) : ℝ)| := by ring
    rw [hd]
    linarith

theorem sep1_eq_self {b d : ℝ} (hb : 0 < b) (h0 : 0 ≤ d) (h1 : d ≤ b / 2) :
    sep1 d b = d := by
  have hm : pmod d b = d := pmod_eq_self hb h0 (by linarith)
  unfold sep1
  rw [hm, if_neg (by linarith)]

/-- Claim C5: `separation_vector(a, b, box)` — computed by wrapping the raw
difference and then subtracting the box side from each component that exceeds
half that side — has each component of absolute value at most half the
corresponding box side, and its magnitude is at most the magnitude of `a - b`
shifted by any of the 9 periodic images (adding `-L`, `0`, or `+L` per axis). -/
theorem c5_separation_vector_minimal (a b box : ℝ × ℝ) (k₁ k₂ : ℤ)
    (hbx : 0 < box.1) (hby : 0 < box.2)
    (hk₁ : k₁.natAbs ≤ 1) (hk₂ : k₂.natAbs ≤ 1) :
    |(separation_vector a b box).1| ≤ box.1 / 2 ∧
    |(separation_vector a b box).2| ≤ box.2 / 2 ∧
    Real.sqrt ((separation_vector a b box).1 ^ 2 + (separation_vector a b box).2 ^ 2) ≤
      Real.sqrt ((a.1 - b.1 + (k₁ : ℝ) * box.1) ^ 2 + (a.2 - b.2 + (k₂ : ℝ) * box.2) ^ 2) := by
  refine ⟨sep1_abs_le hbx _, sep1_abs_le hby _, ?_⟩
  apply Real.sqrt_le_sqrt
  have h1 : (separation_vector a b box).1 ^ 2 ≤ (a.1 - b.1 + (k₁ : ℝ) * box.1) ^ 2 := by
    have := sep1_min_image hbx (a.1 - b.1) k₁
    have := abs_nonneg (sep1 (a.1 - b.1) box.1)
    simp only [separation_vector]
    nlinarith [sq_abs (sep1 (a.1 - b.1) box.1), sq_abs (a.1 - b.1 + (k₁ : ℝ) * box.1)]
  have h2 : (separation_vector a b box).2 ^ 2 ≤ (a.2 - b.2 + (k₂ : ℝ) * box.2) ^ 2 := by
    have := sep1_min_image hby (a.2 - b.2) k₂
    have := abs_nonneg (sep1 (a.2 - b.2) box.2)
    simp only [separation_vector]
    nlinarith [sq_abs (sep1 (a.2 - b.2) box.2), sq_abs (a.2 - b.2 + (k₂ : ℝ) * box.2)]
  linarith

theorem packed_getLast (σ : ℝ) (box : ℝ × ℝ) {n : ℕ} (hn : 0 < n) :
    ((List.range n).map (packedPt σ box)).getLast? = some (packedPt σ box (n - 1)) := by
  obtain ⟨n', rfl⟩ := Nat.exists_eq_add_of_lt hn
  simp only [Nat.zero_add, List.range_succ, List.map_append, List.map_cons, List.map_nil,
    Nat.add_sub_cancel]
  exact List.getLast?_concat _

theorem packedNext_y_mono {σ : ℝ} (hσ : 0 ≤ σ) (box : ℝ × ℝ) (st : (ℝ × ℝ) × Bool) :
    st.1.2 ≤ (packedNext σ box st).1.2 := by
  have h3 : 0 ≤ Real.sqrt 3 := Real.sqrt_nonneg 3
  simp only [packedNext]
  split <;> split <;> simp only [] <;> nlinarith

theorem packedPt_y_mono {σ : ℝ} (hσ : 0 ≤ σ) (box : ℝ × ℝ) {i j : ℕ} (hij : i ≤ j) :
    (packedPt σ box i).2 ≤ (packedPt σ box j).2 := by
  obtain ⟨k, rfl⟩ := Nat.exists_eq_add_of_le hij
  induction k with
  | zero => exact le_rfl
  | succ k ih =>
    calc (packedPt σ box i).2 ≤ (packedPt σ box (i + k)).2 := ih (Nat.le_add_right i k)
      _ ≤ (packedPt σ box (i + (k + 1))).2 := by
          unfold packedPt
          rw [← Nat.add_assoc, Function.iterate_succ_apply']
          exact packedNext_y_mono hσ box _

/-- Claim C9: `create_crystal(n_x, n_y, sigma, box)` raises the
configuration-fit error if and only if the within-row lattice spacing
`box[0] / n_x` is strictly smaller than `2 * sigma`; on failure no
configuration is returned, and when the spacing fits and the grid is
non-degenerate (`n_y > 0`) the full lattice is returned. -/
theorem c9_create_crystal_fit (n_x n_y : ℕ) (σ : ℝ) (box : ℝ × ℝ)
    (hx : 0 < n_x) :
    (create_crystal n_x n_y σ box = .error .fitError ↔ box.1 / (n_x : ℝ) < 2 * σ) ∧
    (¬ box.1 / (n_x : ℝ) < 2 * σ → 0 < n_y →
      create_crystal n_x n_y σ box = .ok ((List.range (n_x * n_y)).map (crystalPt n_x n_y box))) := by
  unfold create_crystal
  rw [if_neg hx.ne']
  constructor
  · constructor
    · intro h
      by_contra hs
      rw [if_neg hs] at h
      by_cases hy : n_y = 0
      · rw [if_pos hy] at h
        simp only [Except.error.injEq] at h
        exact absurd h (by decide)
      · rw [if_neg hy] at h
        exact Except.noConfusion h
    · intro h
      rw [if_pos h]
  · intro h hy
    rw [if_neg h, if_neg hy.ne']

/-- Witness for C9 at a concrete input: two columns, one row, `sigma = 1` in
the unit box, where the row spacing `1 / 2` is below `2`. -/
theorem c9_create_crystal_fit_witness :
    0 < 2 ∧
    ((create_crystal 2 1 1 (1, 1) = .error .fitError ↔ (1 : ℝ) / ((2 : ℕ) : ℝ) < 2 * 1) ∧
     (¬ (1 : ℝ) / ((2 : ℕ) : ℝ) < 2 * 1 → 0 < 1 →
       create_crystal 2 1 1 (1, 1) = .ok ((List.range (2 * 1)).map (crystalPt 2 1 (1, 1))))) :=
  ⟨by norm_num, c9_create_crystal_fit 2 1 1 (1, 1) (by norm_num)⟩

/-- Claim C10: `create_packed` with `n = 0` never runs the placement loop and
the final fit check indexes the last element of the empty position list, so the
call fails with the out-of-bounds index error, which is distinct from the
documented configuration-fit error, and no (empty) configuration is returned. -/
theorem c10_create_packed_empty (σ : ℝ) (box : ℝ × ℝ) :
    create_packed 0 σ box = .error .indexError ∧
    CreateError.indexError ≠ CreateError.fitError := by
  exact ⟨rfl, by decide⟩

/-- Amended claim C1: for every call to `create_packed(n, sigma, box)` or
`create_crystal(n_x, n_y, sigma, box)` with positive `sigma` and positive box
sides that returns normally, the returned list contains exactly the requested
number of two-dimensional positions, and every coordinate returned by
`create_crystal` lies inside the box; for `create_packed` only the
`y`-coordinates are guaranteed inside the box height — the builder never
wraps `x`, and a returned `x`-coordinate can exceed the box width — and the
pairwise periodic minimum-image distance is not guaranteed to be at least
`2 * sigma`: the fit checks (row spacing for `create_crystal`, the last
`y`-coordinate for `create_packed`) exclude neither overlap through the
periodic boundary nor horizontal protrusion, so a silently overlapping or
protruding configuration can be returned.  The two builders are independent:
each guarantee assumes only its own call's normal return. -/
theorem c1_amended (n n_x n_y m k : ℕ) (σ : ℝ) (box : ℝ × ℝ)
    (lp lc : List (ℝ × ℝ))
    (hσ : 0 < σ) (hbx : 0 < box.1) (hby : 0 < box.2) :
    (create_packed n σ box = .ok lp → m < n →
      lp = (List.range n).map (packedPt σ box) ∧
      lp.length = n ∧
      (0 ≤ (packedPt σ box m).2 ∧ (packedPt σ box m).2 < box.2)) ∧
    (create_crystal n_x n_y σ box = .ok lc → k < n_x * n_y →
      lc = (List.range (n_x * n_y)).map (crystalPt n_x n_y box) ∧
      lc.length = n_x * n_y ∧
      ((0 ≤ (crystalPt n_x n_y box k).1 ∧ (crystalPt n_x n_y box k).1 < box.1) ∧
        (0 ≤ (crystalPt n_x n_y box k).2 ∧ (crystalPt n_x n_y box k).2 < box.2))) := by
  constructor
  · intro hp hm
    have hn : 0 < n := lt_of_le_of_lt (Nat.zero_le m) hm
    unfold create_packed at hp
    rw [packed_getLast σ box hn] at hp
    simp only [] at hp
    split_ifs at hp with hfit
    have hlp : lp = (List.range n).map (packedPt σ box) := by
      rw [Except.ok.injEq] at hp
      exact hp.symm
    refine ⟨hlp, by simp [hlp], ?_, ?_⟩
    · have h0 : (packedPt σ box 0).2 = 0 := rfl
      have := packedPt_y_mono hσ.le box (Nat.zero_le m)
      rw [h0] at this
      exact this
    · have hmn : m ≤ n - 1 := Nat.le_pred_of_lt hm
      have := packedPt_y_mono hσ.le box hmn
      linarith
  · intro hc hk
    unfold create_crystal at hc
    split_ifs at hc with hz hs hy
    have hlc : lc = (List.range (n_x * n_y)).map (crystalPt n_x n_y box) := by
      rw [Except.ok.injEq] at hc
      exact hc.symm
    refine ⟨hlc, by simp [hlc], ⟨?_, ?_⟩, ?_, ?_⟩
    · simp only [crystalPt, correct_periodic_position]
      exact pmod_nonneg hbx _
    · simp only [crystalPt, correct_periodic_position]
      exact pmod_lt hbx _
    · simp only [crystalPt, correct_periodic_position]
      exact pmod_nonneg hby _
    · simp only [crystalPt, correct_periodic_position]
      exact pmod_lt hby _

/-- Witness for the amended claim C1: one disk of radius `1/4` in the unit
box, for both builders, with every hypothesis discharged. -/
theorem c1_amended_witness :
    (0 : ℝ) < 1/4 ∧ (0 : ℝ) < (1 : ℝ) ∧ 0 < 1 ∧ 0 < 1 * 1 ∧
    create_packed 1 (1/4) (1, 1) = .ok ((List.range 1).map (packedPt (1/4) (1, 1))) ∧
    create_crystal 1 1 (1/4) (1, 1) = .ok ((List.range (1 * 1)).map (crystalPt 1 1 (1, 1))) ∧
    ((List.range 1).map (packedPt (1/4) (1, 1)) = (List.range 1).map (packedPt (1/4) (1, 1)) ∧
     ((List.range 1).map (packedPt (1/4) (1, 1))).length = 1 ∧
     (0 ≤ (packedPt (1/4) (1, 1) 0).2 ∧ (packedPt (1/4) (1, 1) 0).2 < (1 : ℝ))) ∧
    ((List.range (1 * 1)).map (crystalPt 1 1 (1, 1)) =
       (List.range (1 * 1)).map (crystalPt 1 1 (1, 1)) ∧
     ((List.range (1 * 1)).map (crystalPt 1 1 (1, 1))).length = 1 * 1 ∧
     ((0 ≤ (crystalPt 1 1 (1, 1) 0).1 ∧ (crystalPt 1 1 (1, 1) 0).1 < (1 : ℝ)) ∧
      (0 ≤ (crystalPt 1 1 (1, 1) 0).2 ∧ (crystalPt 1 1 (1, 1) 0).2 < (1 : ℝ)))) := by
  have hp : create_packed 1 (1/4) (1, 1) = .ok ((List.range 1).map (packedPt (1/4) (1, 1))) := by
    unfold create_packed
    rw [packed_getLast _ _ Nat.one_pos]
    norm_num
    intro h
    exact absurd h (by norm_num [packedPt])
  have hc : create_crystal 1 1 (1/4) (1, 1) =
      .ok ((List.range (1 * 1)).map (crystalPt 1 1 (1, 1))) := by
    unfold create_crystal
    norm_num
  have h := c1_amended 1 1 1 0 0 (1/4) (1, 1)
    ((List.range 1).map (packedPt (1/4) (1, 1)))
    ((List.range (1 * 1)).map (crystalPt 1 1 (1, 1)))
    (by norm_num) (by norm_num) (by norm_num)
  exact ⟨by norm_num, by norm_num, by norm_num, by norm_num, hp, hc,
    h.1 hp (by norm_num), h.2 hc (by norm_num)⟩

/-- Counterexample to claim C1, in two parts.  First, `create_crystal(1, 2,
0.3, (1, 0.1))` has positive radius and box sides and returns normally, but
the two returned positions have periodic minimum-image distance below
`2 * sigma` — the row-spacing fit check does not detect vertical overlap
through the periodic boundary, so a silently overlapping configuration is
returned.  Second, `create_packed(2, 1, (1, 10))` has positive radius and box
sides and returns normally, but the second returned position has x-coordinate
`2.05 / 2 > 1`, outside the box width — the builder never wraps x and its fit
check bounds only the last y-coordinate, so a coordinate outside the box is
returned. -/
theorem c1_counterexample :
    ((0 : ℝ) < 3/10 ∧ (0 : ℝ) < (1 : ℝ) ∧ (0 : ℝ) < 1/10 ∧
     create_crystal 1 2 (3/10) (1, 1/10) = .ok [(0, 0), (1/2, 1/20)] ∧
     (separation_vector (0, 0) (1/2, 1/20) (1, 1/10)).1 ^ 2 +
         (separation_vector (0, 0) (1/2, 1/20) (1, 1/10)).2 ^ 2 <
       (2 * (3/10)) ^ 2) ∧
    ((0 : ℝ) < (1 : ℝ) ∧ (0 : ℝ) < (10 : ℝ) ∧
     create_packed 2 1 (1, 10) =
       .ok [(0, 0), (2.05 * 1 / 2, 0 + 2.05 * 1 * Real.sqrt 3 / 2)] ∧
     (1 : ℝ) < 2.05 * 1 / 2) := by
  refine ⟨?_, ?_⟩
  case refine_2 =>
    have h3 : Real.sqrt 3 < 2 := by
      nlinarith [Real.sq_sqrt (by norm_num : (0 : ℝ) ≤ 3), Real.sqrt_nonneg 3]
    have hp1 : packedPt 1 (1, 10) 1 =
        ((2.05 * 1 / 2 : ℝ), (0 + 2.05 * 1 * Real.sqrt 3 / 2 : ℝ)) := by
      show (if (1 : ℝ) ≤ 0 + 2.05 * 1 + 2 * 1 then
          (((2.05 * 1 / 2 : ℝ), (0 + 2.05 * 1 * Real.sqrt 3 / 2 : ℝ)), false)
        else (((0 + 2.05 * 1 : ℝ), (0 : ℝ)), true)).1 =
        ((2.05 * 1 / 2 : ℝ), (0 + 2.05 * 1 * Real.sqrt 3 / 2 : ℝ))
      rw [if_pos (by norm_num : (1 : ℝ) ≤ 0 + 2.05 * 1 + 2 * 1)]
    have hpacked : create_packed 2 1 (1, 10) =
        .ok [((0 : ℝ), (0 : ℝ)), (2.05 * 1 / 2, 0 + 2.05 * 1 * Real.sqrt 3 / 2)] := by
      show (if (10 : ℝ) ≤ (packedPt 1 (1, 10) 1).2 then Except.error CreateError.fitError
        else Except.ok ((List.range 2).map (packedPt 1 (1, 10)))) =
        Except.ok [((0 : ℝ), (0 : ℝ)), (2.05 * 1 / 2, 0 + 2.05 * 1 * Real.sqrt 3 / 2)]
      rw [if_neg (show ¬ (10 : ℝ) ≤ (packedPt 1 (1, 10) 1).2 by
        rw [hp1]
        dsimp only
        nlinarith)]
      rw [show List.range 2 = [0, 1] from rfl, List.map_cons, List.map_cons, List.map_nil,
        show packedPt 1 (1, 10) 0 = ((0 : ℝ), (0 : ℝ)) from rfl, hp1]
    exact ⟨by norm_num, by norm_num, hpacked, by norm_num⟩
  case refine_1 =>
    have e0 : crystalPt 1 2 (1, 1/10) 0 = ((0 : ℝ), (0 : ℝ)) := by
      simp [crystalPt, correct_periodic_position, pmod]
    have e1 : crystalPt 1 2 (1, 1/10) 1 = ((1/2 : ℝ), (1/20 : ℝ)) := by
      have w1 : pmod (1/2 : ℝ) 1 = 1/2 := pmod_eq_self (by norm_num) (by norm_num) (by norm_num)
      have w2 : pmod (1/20 : ℝ) (1/10) = 1/20 :=
        pmod_eq_self (by norm_num) (by norm_num) (by norm_num)
      simp only [crystalPt, correct_periodic_position]
      norm_num [w1, w2]
    have hcr : create_crystal 1 2 (3/10) (1, 1/10) = .ok [(0, 0), (1/2, 1/20)] := by
      unfold create_crystal
      rw [if_neg (by norm_num), if_neg (by norm_num), if_neg (by norm_num)]
      rw [show List.range (1 * 2) = [0, 1] from rfl, List.map_cons, List.map_cons,
        List.map_nil, e0, e1]
    have s1 : sep1 ((0 : ℝ) - 1/2) 1 = 1/2 := by
      have : pmod ((0 : ℝ) - 1/2) 1 = (0 - 1/2) + 1 :=
        pmod_add_self (by norm_num) (by norm_num) (by norm_num)
      unfold sep1
      rw [this]
      norm_num
    have s2 : sep1 ((0 : ℝ) - 1/20) (1/10) = 1/20 := by
      have : pmod ((0 : ℝ) - 1/20) (1/10) = (0 - 1/20) + 1/10 :=
        pmod_add_self (by norm_num) (by norm_num) (by norm_num)
      unfold sep1
      rw [this]
      norm_num
    refine ⟨by norm_num, by norm_num, by norm_num, hcr, ?_⟩
    simp only [separation_vector, s1, s2]
    norm_num

theorem findEventNewtonian_eq (pa pt va : ℝ × ℝ) (σ : ℝ) (box : ℝ × ℝ) :
    findEventNewtonian pa pt va σ box =
      if 0 < upsilonOf va (separation_vector pa pt box) σ ∧
          scalProd va (separation_vector pa pt box) < 0 then
        ((tstarOf va (separation_vector pa pt box) σ : ℝ) : WithTop ℝ)
      else ⊤ := rfl

theorem contact_props (v d : ℝ × ℝ) (σ : ℝ)
    (hΥ : 0 < upsilonOf v d σ) (hs : scalProd v d < 0) (hd : 4 * σ ^ 2 ≤ normSq d) :
    0 ≤ tstarOf v d σ ∧ gapSq d v (tstarOf v d σ) = 4 * σ ^ 2 ∧
      ∀ u : ℝ, 0 ≤ u → gapSq d v u = 4 * σ ^ 2 → tstarOf v d σ ≤ u := by
  obtain ⟨v1, v2⟩ := v
  obtain ⟨d1, d2⟩ := d
  simp only [upsilonOf, scalProd, normSq, gapSq, tstarOf] at *
  have hq : (0 : ℝ) < v1 ^ 2 + v2 ^ 2 := by
    rcases lt_or_eq_of_le (by positivity : (0 : ℝ) ≤ v1 ^ 2 + v2 ^ 2) with h | h
    · exact h
    · exfalso
      have h1 : v1 = 0 := by nlinarith [sq_nonneg v1, sq_nonneg v2]
      have h2 : v2 = 0 := by nlinarith [sq_nonneg v1, sq_nonneg v2]
      rw [h1, h2] at hs
      norm_num at hs
  set r := Real.sqrt ((v1 * d1 + v2 * d2) ^ 2 - (v1 ^ 2 + v2 ^ 2) * (d1 ^ 2 + d2 ^ 2 - 4 * σ ^ 2))
    with hr_def
  have hr2 : r ^ 2 =
      (v1 * d1 + v2 * d2) ^ 2 - (v1 ^ 2 + v2 ^ 2) * (d1 ^ 2 + d2 ^ 2 - 4 * σ ^ 2) :=
    Real.sq_sqrt hΥ.le
  have hr0 : 0 < r := Real.sqrt_pos.mpr hΥ
  have hUle : (v1 * d1 + v2 * d2) ^ 2 - (v1 ^ 2 + v2 ^ 2) * (d1 ^ 2 + d2 ^ 2 - 4 * σ ^ 2) ≤
      (v1 * d1 + v2 * d2) ^ 2 := by nlinarith
  have hrle : r ≤ -(v1 * d1 + v2 * d2) := by
    have h := Real.sqrt_le_sqrt hUle
    rw [← hr_def, Real.sqrt_sq_eq_abs, abs_of_neg hs] at h
    exact h
  have hfact : ∀ t : ℝ,
      (v1 ^ 2 + v2 ^ 2) * ((d1 + t * v1) ^ 2 + (d2 + t * v2) ^ 2 - 4 * σ ^ 2) =
        ((v1 ^ 2 + v2 ^ 2) * t + (v1 * d1 + v2 * d2) + r) *
          ((v1 ^ 2 + v2 ^ 2) * t + (v1 * d1 + v2 * d2) - r) := by
    intro t
    linear_combination hr2
  have hts : (v1 ^ 2 + v2 ^ 2) *
      (-((v1 * d1 + v2 * d2) + r) / (v1 ^ 2 + v2 ^ 2)) = -((v1 * d1 + v2 * d2) + r) := by
    field_simp
  refine ⟨?_, ?_, ?_⟩
  · apply div_nonneg _ hq.le
    linarith
  · have h := hfact (-(v1 * d1 + v2 * d2 + r) / (v1 ^ 2 + v2 ^ 2))
    rw [hts] at h
    have h0 : (v1 ^ 2 + v2 ^ 2) *
        ((d1 + -(v1 * d1 + v2 * d2 + r) / (v1 ^ 2 + v2 ^ 2) * v1) ^ 2 +
          (d2 + -(v1 * d1 + v2 * d2 + r) / (v1 ^ 2 + v2 ^ 2) * v2) ^ 2 - 4 * σ ^ 2) = 0 := by
      linear_combination h
    have h1 := (mul_eq_zero.mp h0).resolve_left hq.ne'
    linarith
  · intro u hu0 hu
    by_contra hlt
    push_neg at hlt
    have hmul : (v1 ^ 2 + v2 ^ 2) * u < (v1 ^ 2 + v2 ^ 2) *
        (-((v1 * d1 + v2 * d2) + r) / (v1 ^ 2 + v2 ^ 2)) :=
      mul_lt_mul_of_pos_left hlt hq
    rw [hts] at hmul
    have f1 : (v1 ^ 2 + v2 ^ 2) * u + (v1 * d1 + v2 * d2) + r < 0 := by linarith
    have f2 : (v1 ^ 2 + v2 ^ 2) * u + (v1 * d1 + v2 * d2) - r < 0 := by linarith
    have hpos := mul_pos_of_neg_of_neg f1 f2
    have h := hfact u
    rw [hu] at h
    nlinarith [h]

theorem findEventMD_eq_newtonian (pa vi pt vj : ℝ × ℝ) (σ : ℝ) (box : ℝ × ℝ) :
    findEventMD pa vi pt vj σ box =
      findEventNewtonian pa pt (vi.1 - vj.1, vi.2 - vj.2) σ box := by
  by_cases hv : (vi.1 - vj.1) ^ 2 + (vi.2 - vj.2) ^ 2 = 0
  · have h1 : vi.1 - vj.1 = 0 := by nlinarith [sq_nonneg (vi.1 - vj.1), sq_nonneg (vi.2 - vj.2)]
    have h2 : vi.2 - vj.2 = 0 := by nlinarith [sq_nonneg (vi.1 - vj.1), sq_nonneg (vi.2 - vj.2)]
    rw [findEventNewtonian_eq]
    have hscal : scalProd (vi.1 - vj.1, vi.2 - vj.2) (separation_vector pa pt box) = 0 := by
      simp [scalProd, h1, h2]
    rw [if_neg (by rw [hscal]; exact fun h => lt_irrefl 0 h.2)]
    simp only [findEventMD]
    rw [if_pos hv]
  · simp only [findEventMD, findEventNewtonian]
    rw [if_neg hv]

theorem findEventForward_eq (pa pt va : ℝ × ℝ) (σ : ℝ) (box : ℝ × ℝ)
    (hunit : normSq va = 1) :
    findEventForward pa pt va σ box =
      if 0 < upsilonOf va (separation_vector pa pt box) σ ∧
          scalProd va (separation_vector pa pt box) < 0 then
        ((-(scalProd va (separation_vector pa pt box) +
            Real.sqrt (upsilonOf va (separation_vector pa pt box) σ)) : ℝ) : WithTop ℝ)
      else ⊤ := by
  have h1 : va.1 ^ 2 + va.2 ^ 2 = 1 := hunit
  simp only [findEventForward, upsilonOf, scalProd, normSq, h1, one_mul]

/-- Amended claim C2: the pairwise collision-time solvers return a finite time
iff `upsilon > 0` and `scal < 0`; in that case the time is
`-(scal + sqrt(upsilon)) / vel_sq` (just `-(scal + sqrt(upsilon))` in the
unit-velocity forward variant), and — provided the two disks do not initially
overlap (minimum-image separation at least `2 * sigma`) — that time is the
smallest non-negative time at which the center separation first equals
`2 * sigma`; in every other case the solver returns infinity.  The molecular
dynamics solver agrees with the Newtonian one applied to the relative
velocity. -/
theorem c2_amended (pa pt va vi vj : ℝ × ℝ) (σ : ℝ) (box : ℝ × ℝ) (u : ℝ) :
    (findEventNewtonian pa pt va σ box ≠ ⊤ ↔
      0 < upsilonOf va (separation_vector pa pt box) σ ∧
        scalProd va (separation_vector pa pt box) < 0) ∧
    (0 < upsilonOf va (separation_vector pa pt box) σ →
      scalProd va (separation_vector pa pt box) < 0 →
      findEventNewtonian pa pt va σ box =
        ((tstarOf va (separation_vector pa pt box) σ : ℝ) : WithTop ℝ) ∧
      (4 * σ ^ 2 ≤ normSq (separation_vector pa pt box) →
        0 ≤ tstarOf va (separation_vector pa pt box) σ ∧
        gapSq (separation_vector pa pt box) va
            (tstarOf va (separation_vector pa pt box) σ) = 4 * σ ^ 2 ∧
        (0 ≤ u → gapSq (separation_vector pa pt box) va u = 4 * σ ^ 2 →
          tstarOf va (separation_vector pa pt box) σ ≤ u))) ∧
    findEventMD pa vi pt vj σ box =
      findEventNewtonian pa pt (vi.1 - vj.1, vi.2 - vj.2) σ box ∧
    (normSq va = 1 →
      findEventForward pa pt va σ box =
        if 0 < upsilonOf va (separation_vector pa pt box) σ ∧
            scalProd va (separation_vector pa pt box) < 0 then
          ((-(scalProd va (separation_vector pa pt box) +
              Real.sqrt (upsilonOf va (separation_vector pa pt box) σ)) : ℝ) : WithTop ℝ)
        else ⊤) := by
  refine ⟨?_, ?_, findEventMD_eq_newtonian pa vi pt vj σ box, findEventForward_eq pa pt va σ box⟩
  · rw [findEventNewtonian_eq]
    by_cases h : 0 < upsilonOf va (separation_vector pa pt box) σ ∧
        scalProd va (separation_vector pa pt box) < 0
    · rw [if_pos h]
      simp [h]
    · rw [if_neg h]
      simp [h]
  · intro h1 h2
    rw [findEventNewtonian_eq, if_pos ⟨h1, h2⟩]
    refine ⟨rfl, fun hd => ?_⟩
    obtain ⟨ha, hb, hc⟩ := contact_props va (separation_vector pa pt box) σ h1 h2 hd
    exact ⟨ha, hb, hc u⟩

/-- Counterexample to claim C2: for initially overlapping disks
(`pos_active = (1, 0)`, `pos_target = (0, 0)`, `sigma = 1`) approaching with
velocity `(-1, 0)`, the solver returns the finite time `-1`, which is not a
non-negative time at all, although a non-negative contact time (`t = 3`)
exists — so the returned time is not the smallest non-negative time at which
the separation first equals `2 * sigma`. -/
theorem c2_counterexample :
    findEventNewtonian (1, 0) (0, 0) (-1, 0) 1 (10, 10) = ((-1 : ℝ) : WithTop ℝ) ∧
    ¬ (0 : ℝ) ≤ -1 ∧
    gapSq (separation_vector (1, 0) (0, 0) (10, 10)) (-1, 0) 3 = 4 * 1 ^ 2 ∧
    (0 : ℝ) ≤ 3 := by
  have hsep : separation_vector ((1 : ℝ), (0 : ℝ)) (0, 0) (10, 10) = (1, 0) := by
    simp only [separation_vector]
    rw [show (1 : ℝ) - 0 = 1 by norm_num, show (0 : ℝ) - 0 = 0 by norm_num,
      sep1_eq_self (by norm_num) (by norm_num) (by norm_num),
      sep1_eq_self (by norm_num) (by norm_num) (by norm_num)]
  refine ⟨?_, by norm_num, ?_, by norm_num⟩
  · rw [findEventNewtonian_eq, hsep]
    rw [if_pos (by norm_num [upsilonOf, scalProd, normSq])]
    have : upsilonOf ((-1 : ℝ), (0 : ℝ)) (1, 0) 1 = 4 := by
      norm_num [upsilonOf, scalProd, normSq]
    rw [show tstarOf ((-1 : ℝ), (0 : ℝ)) (1, 0) 1 = -1 by
      rw [tstarOf, this, show Real.sqrt 4 = 2 by
        rw [show (4 : ℝ) = 2 ^ 2 by norm_num, Real.sqrt_sq (by norm_num : (0 : ℝ) ≤ 2)]]
      norm_num [scalProd, normSq]]
  · rw [hsep]
    norm_num [gapSq]

/-- Witness for the amended claim C2 at a concrete non-overlapping input:
`pos_active = (3, 0)`, `pos_target = (0, 0)`, `vel_active = (-1, 0)`,
`sigma = 1`, `box = (10, 10)`, candidate contact time `u = 1`. -/
theorem c2_amended_witness :
    (findEventNewtonian (3, 0) (0, 0) (-1, 0) 1 (10, 10) ≠ ⊤ ↔
      0 < upsilonOf (-1, 0) (separation_vector (3, 0) (0, 0) (10, 10)) 1 ∧
        scalProd (-1, 0) (separation_vector (3, 0) (0, 0) (10, 10)) < 0) ∧
    findEventNewtonian (3, 0) (0, 0) (-1, 0) 1 (10, 10) =
      ((tstarOf (-1, 0) (separation_vector (3, 0) (0, 0) (10, 10)) 1 : ℝ) : WithTop ℝ) ∧
    0 ≤ tstarOf (-1, 0) (separation_vector (3, 0) (0, 0) (10, 10)) 1 ∧
    gapSq (separation_vector (3, 0) (0, 0) (10, 10)) (-1, 0)
        (tstarOf (-1, 0) (separation_vector (3, 0) (0, 0) (10, 10)) 1) = 4 * 1 ^ 2 ∧
    tstarOf (-1, 0) (separation_vector (3, 0) (0, 0) (10, 10)) 1 ≤ 1 ∧
    findEventMD (3, 0) (1, 1) (0, 0) (2, 1) 1 (10, 10) =
      findEventNewtonian (3, 0) (0, 0) ((1 : ℝ) - 2, (1 : ℝ) - 1) 1 (10, 10) ∧
    findEventForward (3, 0) (0, 0) (-1, 0) 1 (10, 10) =
      if 0 < upsilonOf (-1, 0) (separation_vector (3, 0) (0, 0) (10, 10)) 1 ∧
          scalProd (-1, 0) (separation_vector (3, 0) (0, 0) (10, 10)) < 0 then
        ((-(scalProd (-1, 0) (separation_vector (3, 0) (0, 0) (10, 10)) +
            Real.sqrt (upsilonOf (-1, 0) (separation_vector (3, 0) (0, 0) (10, 10)) 1)) : ℝ) :
          WithTop ℝ)
      else ⊤ := by
  have hsep : separation_vector ((3 : ℝ), (0 : ℝ)) (0, 0) (10, 10) = (3, 0) := by
    simp only [separation_vector]
    rw [show (3 : ℝ) - 0 = 3 by norm_num, show (0 : ℝ) - 0 = 0 by norm_num,
      sep1_eq_self (by norm_num) (by norm_num) (by norm_num),
      sep1_eq_self (by norm_num) (by norm_num) (by norm_num)]
  have hU : 0 < upsilonOf ((-1 : ℝ), (0 : ℝ)) (separation_vector (3, 0) (0, 0) (10, 10)) 1 := by
    rw [hsep]
    norm_num [upsilonOf, scalProd, normSq]
  have hS : scalProd ((-1 : ℝ), (0 : ℝ)) (separation_vector (3, 0) (0, 0) (10, 10)) < 0 := by
    rw [hsep]
    norm_num [scalProd]
  have hD : 4 * (1 : ℝ) ^ 2 ≤ normSq (separation_vector (3, 0) (0, 0) (10, 10)) := by
    rw [hsep]
    norm_num [normSq]
  have hGap : gapSq (separation_vector ((3 : ℝ), (0 : ℝ)) (0, 0) (10, 10)) (-1, 0) 1 =
      4 * 1 ^ 2 := by
    rw [hsep]
    norm_num [gapSq]
  have h := c2_amended (3, 0) (0, 0) (-1, 0) (1, 1) (2, 1) 1 (10, 10) 1
  obtain ⟨hiff, hmain, hmd, hfwd⟩ := h
  obtain ⟨hformula, hcontact⟩ := hmain hU hS
  obtain ⟨ht0, htc, htmin⟩ := hcontact hD
  exact ⟨hiff, hformula, ht0, htc, htmin (by norm_num) hGap, hmd,
    hfwd (by norm_num [normSq])⟩

/-- Claim C7: a zero velocity supplied to the collision-time solver (relative
velocity for molecular dynamics, active-disk velocity for event-chain) yields
an infinite time, and the division by the squared velocity magnitude in the
finite-time branch is unreachable under zero velocity: a finite result forces
a non-zero squared velocity. -/
theorem c7_zero_velocity (pa pt va vi vj : ℝ × ℝ) (σ : ℝ) (box : ℝ × ℝ) :
    findEventNewtonian pa pt (0, 0) σ box = ⊤ ∧
    (vi = vj → findEventMD pa vi pt vj σ box = ⊤) ∧
    (findEventNewtonian pa pt va σ box ≠ ⊤ → normSq va ≠ 0) ∧
    (findEventMD pa vi pt vj σ box ≠ ⊤ → normSq (vi.1 - vj.1, vi.2 - vj.2) ≠ 0) := by
  refine ⟨?_, ?_, ?_, ?_⟩
  · rw [findEventNewtonian_eq]
    rw [if_neg (by norm_num [upsilonOf, scalProd, normSq])]
  · intro h
    subst h
    simp [findEventMD]
  · intro h hq
    rw [findEventNewtonian_eq] at h
    have h1 : va.1 = 0 := by
      have := hq
      simp only [normSq] at this
      nlinarith [sq_nonneg va.1, sq_nonneg va.2]
    have h2 : va.2 = 0 := by
      simp only [normSq] at hq
      nlinarith [sq_nonneg va.1, sq_nonneg va.2]
    apply h
    rw [if_neg]
    intro hcond
    have : scalProd va (separation_vector pa pt box) = 0 := by
      simp [scalProd, h1, h2]
    rw [this] at hcond
    exact lt_irrefl 0 hcond.2
  · intro h hq
    simp only [findEventMD] at h
    apply h
    rw [if_pos]
    exact hq

/-- Witness for C7: the Newtonian solver with zero active velocity and the
molecular-dynamics solver with equal (hence zero relative) velocities both
report an infinite time at a concrete input. -/
theorem c7_zero_velocity_witness :
    findEventNewtonian (0, 0) (1, 0) (0, 0) 1 (10, 10) = ⊤ ∧
    findEventMD (0, 0) (2, 3) (1, 0) (2, 3) 1 (10, 10) = ⊤ :=
  ⟨(c7_zero_velocity (0, 0) (1, 0) (1, 1) (2, 3) (2, 3) 1 (10, 10)).1,
   (c7_zero_velocity (0, 0) (1, 0) (1, 1) (2, 3) (2, 3) 1 (10, 10)).2.1 rfl⟩

theorem sum_double_update (n a t : ℕ) (f : ℕ → ℝ) (x y : ℝ)
    (ha : a < n) (ht : t < n) (hne : a ≠ t) :
    ∑ i ∈ Finset.range n, Function.update (Function.update f a x) t y i =
      (∑ i ∈ Finset.range n, f i) - f a - f t + x + y := by
  rw [Finset.sum_update_of_mem (Finset.mem_range.mpr ht),
    Finset.sum_update_of_mem
      (Finset.mem_sdiff.mpr ⟨Finset.mem_range.mpr ha, by simp [hne]⟩),
    Finset.sum_eq_sum_diff_singleton_add (Finset.mem_range.mpr ht) f,
    Finset.sum_eq_sum_diff_singleton_add
      (Finset.mem_sdiff.mpr ⟨Finset.mem_range.mpr ha, by simp [hne]⟩) f]
  ring

theorem pointwise_double_update (vel : ℕ → ℝ × ℝ) (a t : ℕ) (va vt : ℝ × ℝ)
    (g : ℝ × ℝ → ℝ) (i : ℕ) :
    g (Function.update (Function.update vel a va) t vt i) =
      Function.update (Function.update (fun j => g (vel j)) a (g va)) t (g vt) i := by
  rcases eq_or_ne i t with rfl | hit
  · simp
  · rcases eq_or_ne i a with rfl | hia
    · simp [Function.update_noteq hit]
    · simp [Function.update_noteq hit, Function.update_noteq hia]

theorem sum_exchange (n a t : ℕ) (vel : ℕ → ℝ × ℝ) (va1 va2 vt1 vt2 : ℝ)
    (ha : a < n) (ht : t < n) (hne : a ≠ t)
    (hke : va1 ^ 2 + va2 ^ 2 + (vt1 ^ 2 + vt2 ^ 2) =
      (vel a).1 ^ 2 + (vel a).2 ^ 2 + ((vel t).1 ^ 2 + (vel t).2 ^ 2))
    (hm1 : va1 + vt1 = (vel a).1 + (vel t).1)
    (hm2 : va2 + vt2 = (vel a).2 + (vel t).2) :
    kineticEnergy n (Function.update (Function.update vel a (va1, va2)) t (vt1, vt2)) =
      kineticEnergy n vel ∧
    totalMomentum n (Function.update (Function.update vel a (va1, va2)) t (vt1, vt2)) =
      totalMomentum n vel := by
  refine ⟨?_, ?_⟩
  · unfold kineticEnergy
    rw [Finset.sum_congr rfl fun i _ =>
      pointwise_double_update vel a t (va1, va2) (vt1, vt2) (fun v => v.1 ^ 2 + v.2 ^ 2) i]
    rw [sum_double_update n a t _ _ _ ha ht hne]
    dsimp only
    linarith
  · unfold totalMomentum
    rw [Prod.mk.injEq]
    constructor
    · rw [Finset.sum_congr rfl fun i _ =>
        pointwise_double_update vel a t (va1, va2) (vt1, vt2) (fun v => v.1) i]
      rw [sum_double_update n a t _ _ _ ha ht hne]
      dsimp only
      linarith
    · rw [Finset.sum_congr rfl fun i _ =>
        pointwise_double_update vel a t (va1, va2) (vt1, vt2) (fun v => v.2) i]
      rw [sum_double_update n a t _ _ _ ha ht hne]
      dsimp only
      linarith

/-- Claim C3: the Newtonian event-chain pair update and the molecular-dynamics
pair update, applied at contact (minimum-image separation of the colliding
centers of magnitude exactly `2 * sigma`), leave the summed kinetic energy and
the summed momentum of the full configuration unchanged. -/
theorem c3_conservation (n a t : ℕ) (pos vel : ℕ → ℝ × ℝ) (σ : ℝ) (box : ℝ × ℝ)
    (ha : a < n) (ht : t < n) (hne : a ≠ t) (hσ : 0 < σ)
    (hcontact : normSq (separation_vector (pos t) (pos a) box) = (2 * σ) ^ 2) :
    kineticEnergy n (newtonianCollide pos vel a t σ box) = kineticEnergy n vel ∧
    totalMomentum n (newtonianCollide pos vel a t σ box) = totalMomentum n vel ∧
    kineticEnergy n (mdCollide pos vel a t box) = kineticEnergy n vel ∧
    totalMomentum n (mdCollide pos vel a t box) = totalMomentum n vel := by
  simp only [normSq] at hcontact
  have hσne : σ ≠ 0 := hσ.ne'
  set S1 := (separation_vector (pos t) (pos a) box).1 with hS1
  set S2 := (separation_vector (pos t) (pos a) box).2 with hS2
  have he : (S1 / 2 / σ) ^ 2 + (S2 / 2 / σ) ^ 2 = 1 := by
    field_simp
    linear_combination hcontact
  have he2 : (S1 / (2 * σ)) ^ 2 + (S2 / (2 * σ)) ^ 2 = 1 := by
    field_simp
    linear_combination hcontact
  have hnorm : Real.sqrt (S1 ^ 2 + S2 ^ 2) = 2 * σ := by
    rw [hcontact, Real.sqrt_sq (by positivity)]
  have hN := sum_exchange n a t vel
    ((vel a).1 + S1 / 2 / σ *
      (((vel t).1 - (vel a).1) * (S1 / 2 / σ) + ((vel t).2 - (vel a).2) * (S2 / 2 / σ)))
    ((vel a).2 + S2 / 2 / σ *
      (((vel t).1 - (vel a).1) * (S1 / 2 / σ) + ((vel t).2 - (vel a).2) * (S2 / 2 / σ)))
    ((vel t).1 - S1 / 2 / σ *
      (((vel t).1 - (vel a).1) * (S1 / 2 / σ) + ((vel t).2 - (vel a).2) * (S2 / 2 / σ)))
    ((vel t).2 - S2 / 2 / σ *
      (((vel t).1 - (vel a).1) * (S1 / 2 / σ) + ((vel t).2 - (vel a).2) * (S2 / 2 / σ)))
    ha ht hne
    (by linear_combination (2 * (((vel t).1 - (vel a).1) * (S1 / 2 / σ) +
      ((vel t).2 - (vel a).2) * (S2 / 2 / σ)) ^ 2) * he)
    (by ring) (by ring)
  have hM := sum_exchange n a t vel
    ((vel a).1 + S1 / (2 * σ) *
      (((vel t).1 - (vel a).1) * (S1 / (2 * σ)) + ((vel t).2 - (vel a).2) * (S2 / (2 * σ))))
    ((vel a).2 + S2 / (2 * σ) *
      (((vel t).1 - (vel a).1) * (S1 / (2 * σ)) + ((vel t).2 - (vel a).2) * (S2 / (2 * σ))))
    ((vel t).1 - S1 / (2 * σ) *
      (((vel t).1 - (vel a).1) * (S1 / (2 * σ)) + ((vel t).2 - (vel a).2) * (S2 / (2 * σ))))
    ((vel t).2 - S2 / (2 * σ) *
      (((vel t).1 - (vel a).1) * (S1 / (2 * σ)) + ((vel t).2 - (vel a).2) * (S2 / (2 * σ))))
    ha ht hne
    (by linear_combination (2 * (((vel t).1 - (vel a).1) * (S1 / (2 * σ)) +
      ((vel t).2 - (vel a).2) * (S2 / (2 * σ))) ^ 2) * he2)
    (by ring) (by ring)
  have hNdef : newtonianCollide pos vel a t σ box =
      Function.update (Function.update vel a
        ((vel a).1 + S1 / 2 / σ *
          (((vel t).1 - (vel a).1) * (S1 / 2 / σ) + ((vel t).2 - (vel a).2) * (S2 / 2 / σ)),
         (vel a).2 + S2 / 2 / σ *
          (((vel t).1 - (vel a).1) * (S1 / 2 / σ) + ((vel t).2 - (vel a).2) * (S2 / 2 / σ)))) t
        ((vel t).1 - S1 / 2 / σ *
          (((vel t).1 - (vel a).1) * (S1 / 2 / σ) + ((vel t).2 - (vel a).2) * (S2 / 2 / σ)),
         (vel t).2 - S2 / 2 / σ *
          (((vel t).1 - (vel a).1) * (S1 / 2 / σ) + ((vel t).2 - (vel a).2) * (S2 / 2 / σ))) := by
    rw [hS1, hS2]
    rfl
  have hMdef : mdCollide pos vel a t box =
      Function.update (Function.update vel a
        ((vel a).1 + S1 / (2 * σ) *
          (((vel t).1 - (vel a).1) * (S1 / (2 * σ)) + ((vel t).2 - (vel a).2) * (S2 / (2 * σ))),
         (vel a).2 + S2 / (2 * σ) *
          (((vel t).1 - (vel a).1) * (S1 / (2 * σ)) + ((vel t).2 - (vel a).2) * (S2 / (2 * σ))))) t
        ((vel t).1 - S1 / (2 * σ) *
          (((vel t).1 - (vel a).1) * (S1 / (2 * σ)) + ((vel t).2 - (vel a).2) * (S2 / (2 * σ))),
         (vel t).2 - S2 / (2 * σ) *
          (((vel t).1 - (vel a).1) * (S1 / (2 * σ)) + ((vel t).2 - (vel a).2) * (S2 / (2 * σ)))) := by
    have h0 : mdCollide pos vel a t box =
        Function.update (Function.update vel a
          ((vel a).1 + S1 / Real.sqrt (S1 ^ 2 + S2 ^ 2) *
            (((vel t).1 - (vel a).1) * (S1 / Real.sqrt (S1 ^ 2 + S2 ^ 2)) +
              ((vel t).2 - (vel a).2) * (S2 / Real.sqrt (S1 ^ 2 + S2 ^ 2))),
           (vel a).2 + S2 / Real.sqrt (S1 ^ 2 + S2 ^ 2) *
            (((vel t).1 - (vel a).1) * (S1 / Real.sqrt (S1 ^ 2 + S2 ^ 2)) +
              ((vel t).2 - (vel a).2) * (S2 / Real.sqrt (S1 ^ 2 + S2 ^ 2))))) t
          ((vel t).1 - S1 / Real.sqrt (S1 ^ 2 + S2 ^ 2) *
            (((vel t).1 - (vel a).1) * (S1 / Real.sqrt (S1 ^ 2 + S2 ^ 2)) +
              ((vel t).2 - (vel a).2) * (S2 / Real.sqrt (S1 ^ 2 + S2 ^ 2))),
           (vel t).2 - S2 / Real.sqrt (S1 ^ 2 + S2 ^ 2) *
            (((vel t).1 - (vel a).1) * (S1 / Real.sqrt (S1 ^ 2 + S2 ^ 2)) +
              ((vel t).2 - (vel a).2) * (S2 / Real.sqrt (S1 ^ 2 + S2 ^ 2)))) := by
      rw [hS1, hS2]
      rfl
    rw [hnorm] at h0
    exact h0
  rw [hNdef, hMdef]
  exact ⟨hN.1, hN.2, hM.1, hM.2⟩

/-- Witness for C3 at a concrete contact configuration: two disks of radius
`1/2` at `(0, 0)` and `(1, 0)` in a `10 × 10` periodic box. -/
theorem c3_conservation_witness :
    (0 : ℕ) ≠ 1 ∧ (0 : ℝ) < 1/2 ∧
    normSq (separation_vector
        ((fun k => if k = 0 then ((0 : ℝ), (0 : ℝ)) else (1, 0)) 1)
        ((fun k => if k = 0 then ((0 : ℝ), (0 : ℝ)) else (1, 0)) 0) (10, 10)) =
      (2 * (1/2)) ^ 2 ∧
    kineticEnergy 2 (newtonianCollide
        (fun k => if k = 0 then ((0 : ℝ), (0 : ℝ)) else (1, 0))
        (fun k => if k = 0 then ((1 : ℝ), (0 : ℝ)) else (0, 1)) 0 1 (1/2) (10, 10)) =
      kineticEnergy 2 (fun k => if k = 0 then ((1 : ℝ), (0 : ℝ)) else (0, 1)) ∧
    totalMomentum 2 (newtonianCollide
        (fun k => if k = 0 then ((0 : ℝ), (0 : ℝ)) else (1, 0))
        (fun k => if k = 0 then ((1 : ℝ), (0 : ℝ)) else (0, 1)) 0 1 (1/2) (10, 10)) =
      totalMomentum 2 (fun k => if k = 0 then ((1 : ℝ), (0 : ℝ)) else (0, 1)) ∧
    kineticEnergy 2 (mdCollide
        (fun k => if k = 0 then ((0 : ℝ), (0 : ℝ)) else (1, 0))
        (fun k => if k = 0 then ((1 : ℝ), (0 : ℝ)) else (0, 1)) 0 1 (10, 10)) =
      kineticEnergy 2 (fun k => if k = 0 then ((1 : ℝ), (0 : ℝ)) else (0, 1)) ∧
    totalMomentum 2 (mdCollide
        (fun k => if k = 0 then ((0 : ℝ), (0 : ℝ)) else (1, 0))
        (fun k => if k = 0 then ((1 : ℝ), (0 : ℝ)) else (0, 1)) 0 1 (10, 10)) =
      totalMomentum 2 (fun k => if k = 0 then ((1 : ℝ), (0 : ℝ)) else (0, 1)) := by
  have hsep : separation_vector ((1 : ℝ), (0 : ℝ)) (0, 0) (10, 10) = (1, 0) := by
    simp only [separation_vector]
    rw [show (1 : ℝ) - 0 = 1 by norm_num, show (0 : ℝ) - 0 = 0 by norm_num,
      sep1_eq_self (by norm_num) (by norm_num) (by norm_num),
      sep1_eq_self (by norm_num) (by norm_num) (by norm_num)]
  have hcontact : normSq (separation_vector
      ((fun k => if k = 0 then ((0 : ℝ), (0 : ℝ)) else (1, 0)) 1)
      ((fun k => if k = 0 then ((0 : ℝ), (0 : ℝ)) else (1, 0)) 0) (10, 10)) =
      (2 * (1/2 : ℝ)) ^ 2 := by
    show normSq (separation_vector ((1 : ℝ), (0 : ℝ)) (0, 0) (10, 10)) = (2 * (1/2 : ℝ)) ^ 2
    rw [hsep]
    norm_num [normSq]
  have h := c3_conservation 2 0 1
    (fun k => if k = 0 then ((0 : ℝ), (0 : ℝ)) else (1, 0))
    (fun k => if k = 0 then ((1 : ℝ), (0 : ℝ)) else (0, 1)) (1/2) (10, 10)
    (by norm_num) (by norm_num) (by norm_num) (by norm_num) hcontact
  exact ⟨by norm_num, by norm_num, hcontact, h.1, h.2.1, h.2.2.1, h.2.2.2⟩

theorem firstMinBy_le {α : Type} (key : α → WithTop ℝ) :
    ∀ (l : List α) (x y : α), y ∈ x :: l → key (firstMinBy key x l) ≤ key y := by
  intro l
  induction l with
  | nil =>
    intro x y hy
    rw [List.mem_singleton] at hy
    subst hy
    exact le_rfl
  | cons z zs ih =>
    intro x y hy
    show key (firstMinBy key (if key z < key x then z else x) zs) ≤ key y
    have hb : key (if key z < key x then z else x) ≤ key x ∧
        key (if key z < key x then z else x) ≤ key z := by
      split
      · exact ⟨le_of_lt (by assumption), le_rfl⟩
      · exact ⟨le_rfl, le_of_not_lt (by assumption)⟩
    rcases List.mem_cons.mp hy with rfl | hy2
    · exact le_trans (ih _ _ (List.mem_cons_self _ _)) hb.1
    · rcases List.mem_cons.mp hy2 with rfl | hy3
      · exact le_trans (ih _ _ (List.mem_cons_self _ _)) hb.2
      · exact ih _ y (List.mem_cons_of_mem _ hy3)

theorem selectBy_le {α : Type} (key : α → WithTop ℝ) (d : α) (l : List α) (y : α)
    (hy : y ∈ l) : key (selectBy key d l) ≤ key y := by
  cases l with
  | nil => exact absurd hy (List.not_mem_nil y)
  | cons x xs => exact firstMinBy_le key xs x y hy

theorem untop_zero_le_of_le {w : WithTop ℝ} {c : ℝ} (h : w ≤ (c : WithTop ℝ)) :
    w.untop' 0 ≤ c := by
  rcases w with _ | x
  · exact absurd h (WithTop.not_top_le_coe c)
  · exact WithTop.coe_le_coe.mp h

theorem chainStepN_time_le (n : ℕ) (σ : ℝ) (box : ℝ × ℝ) (st : ChainState) :
    (chainStepN n σ box st).2 ≤ st.chainTime := by
  have hmem : (st.active,
      ((timeCutoffN st.chainTime box σ (st.vel st.active) : ℝ) : WithTop ℝ)) ∈
      newtonianEvents n σ box st := by
    unfold newtonianEvents
    exact List.mem_append_right _ (List.mem_singleton.mpr rfl)
  have hle := selectBy_le (fun e => e.2) (st.active, ⊤) (newtonianEvents n σ box st) _ hmem
  have h2 : (chainStepN n σ box st).2 =
      (selectBy (fun e => e.2) (st.active, ⊤) (newtonianEvents n σ box st)).2.untop' 0 := rfl
  rw [h2]
  exact le_trans (untop_zero_le_of_le hle) (min_le_left _ _)

theorem chainStepN_chainTime (n : ℕ) (σ : ℝ) (box : ℝ × ℝ) (st : ChainState) :
    (chainStepN n σ box st).1.chainTime = st.chainTime - (chainStepN n σ box st).2 := rfl

theorem chainStepS_time_le (n : ℕ) (σ : ℝ) (box : ℝ × ℝ) (direction : ℕ) (st : SState) :
    (chainStepS n σ box direction st).2 ≤ st.chainTime := by
  have hmem : (st.active, ((st.chainTime : ℝ) : WithTop ℝ), (0 : ℝ)) ∈
      straightEvents n σ box direction st := by
    unfold straightEvents
    exact List.mem_append_right _ (List.mem_singleton.mpr rfl)
  have hle := selectBy_le (fun e => e.2.1) (st.active, ⊤, 0)
    (straightEvents n σ box direction st) _ hmem
  have h2 : (chainStepS n σ box direction st).2 =
      (selectBy (fun e => e.2.1) (st.active, ⊤, 0)
        (straightEvents n σ box direction st)).2.1.untop' 0 := rfl
  rw [h2]
  exact untop_zero_le_of_le hle

theorem chainStepS_chainTime (n : ℕ) (σ : ℝ) (box : ℝ × ℝ) (direction : ℕ) (st : SState) :
    (chainStepS n σ box direction st).1.chainTime =
      st.chainTime - (chainStepS n σ box direction st).2 := rfl

theorem chainRunN_consumed (n : ℕ) (σ : ℝ) (box : ℝ × ℝ) :
    ∀ (k : ℕ) (st : ChainState),
      (chainRunN n σ box k st).2 = st.chainTime - (chainRunN n σ box k st).1.chainTime := by
  intro k
  induction k with
  | zero => intro st; simp [chainRunN]
  | succ k ih =>
    intro st
    rw [chainRunN]
    split
    · dsimp only
      rw [ih (chainStepN n σ box st).1, chainStepN_chainTime]
      ring
    · simp

theorem chainRunN_nonneg (n : ℕ) (σ : ℝ) (box : ℝ × ℝ) :
    ∀ (k : ℕ) (st : ChainState), 0 ≤ st.chainTime →
      0 ≤ (chainRunN n σ box k st).1.chainTime := by
  intro k
  induction k with
  | zero => intro st h; simpa [chainRunN] using h
  | succ k ih =>
    intro st h
    rw [chainRunN]
    split
    · dsimp only
      apply ih
      rw [chainStepN_chainTime]
      have := chainStepN_time_le n σ box st
      linarith
    · simpa using h

theorem chainRunS_consumed (n : ℕ) (σ : ℝ) (box : ℝ × ℝ) (direction : ℕ) :
    ∀ (k : ℕ) (st : SState),
      (chainRunS n σ box direction k st).2 =
        st.chainTime - (chainRunS n σ box direction k st).1.chainTime := by
  intro k
  induction k with
  | zero => intro st; simp [chainRunS]
  | succ k ih =>
    intro st
    rw [chainRunS]
    split
    · dsimp only
      rw [ih (chainStepS n σ box direction st).1, chainStepS_chainTime]
      ring
    · simp

theorem chainRunS_nonneg (n : ℕ) (σ : ℝ) (box : ℝ × ℝ) (direction : ℕ) :
    ∀ (k : ℕ) (st : SState), 0 ≤ st.chainTime →
      0 ≤ (chainRunS n σ box direction k st).1.chainTime := by
  intro k
  induction k with
  | zero => intro st h; simpa [chainRunS] using h
  | succ k ih =>
    intro st h
    rw [chainRunS]
    split
    · dsimp only
      apply ih
      rw [chainStepS_chainTime]
      have := chainStepS_time_le n σ box direction st
      linarith
    · simpa using h

theorem speed_one_zero : speed ((1 : ℝ), (0 : ℝ)) = 1 := by
  unfold speed
  norm_num [Real.sqrt_one]

theorem oneDiskN_events :
    newtonianEvents 1 1 (10, 10) oneDiskN = [(0, ((1 : ℝ) : WithTop ℝ))] := by
  have htcN : timeCutoffN 1 (10, 10) 1 ((1 : ℝ), (0 : ℝ)) = 1 := by
    unfold timeCutoffN cutoff
    rw [speed_one_zero]
    norm_num
  unfold newtonianEvents
  rw [show List.range 1 = [0] from rfl,
    show ([0] : List ℕ).filter (fun target => target ≠ oneDiskN.active) = [] by
      simp [oneDiskN],
    List.map_nil, List.nil_append,
    show oneDiskN.chainTime = 1 from rfl,
    show oneDiskN.vel oneDiskN.active = ((1 : ℝ), (0 : ℝ)) from rfl, htcN]
  rfl

theorem oneDiskN_select :
    selectBy (fun e => e.2) (oneDiskN.active, ⊤) (newtonianEvents 1 1 (10, 10) oneDiskN) =
      (0, ((1 : ℝ) : WithTop ℝ)) := by
  rw [oneDiskN_events]
  rfl

theorem oneDiskN_step_time : (chainStepN 1 1 (10, 10) oneDiskN).2 = 1 := by
  show (selectBy (fun e => e.2) (oneDiskN.active, ⊤)
      (newtonianEvents 1 1 (10, 10) oneDiskN)).2.untop' 0 = 1
  rw [oneDiskN_select]
  rfl

theorem oneDiskN_run :
    (chainRunN 1 1 (10, 10) 1 oneDiskN).1.chainTime ≤ 0 := by
  have h1 : chainRunN 1 1 (10, 10) 1 oneDiskN =
      ((chainStepN 1 1 (10, 10) oneDiskN).1, (chainStepN 1 1 (10, 10) oneDiskN).2 + 0) := by
    show (if 0 < oneDiskN.chainTime then
        ((chainRunN 1 1 (10, 10) 0 (chainStepN 1 1 (10, 10) oneDiskN).1).1,
          (chainStepN 1 1 (10, 10) oneDiskN).2 +
            (chainRunN 1 1 (10, 10) 0 (chainStepN 1 1 (10, 10) oneDiskN).1).2)
      else (oneDiskN, 0)) =
      ((chainStepN 1 1 (10, 10) oneDiskN).1, (chainStepN 1 1 (10, 10) oneDiskN).2 + 0)
    rw [if_pos (show (0 : ℝ) < oneDiskN.chainTime from by norm_num [oneDiskN])]
    rfl
  rw [h1]
  dsimp only
  rw [chainStepN_chainTime, oneDiskN_step_time]
  norm_num [oneDiskN]

theorem oneDiskS_events :
    straightEvents 1 1 (10, 10) 0 oneDiskS = [(0, ((1 : ℝ) : WithTop ℝ), (0 : ℝ))] := by
  unfold straightEvents
  rw [show List.range 1 = [0] from rfl,
    show ([0] : List ℕ).filter (fun target => target ≠ oneDiskS.active) = [] by
      simp [oneDiskS],
    List.map_nil, List.nil_append]
  rfl

theorem oneDiskS_step_time : (chainStepS 1 1 (10, 10) 0 oneDiskS).2 = 1 := by
  show (selectBy (fun e => e.2.1) (oneDiskS.active, ⊤, 0)
      (straightEvents 1 1 (10, 10) 0 oneDiskS)).2.1.untop' 0 = 1
  rw [oneDiskS_events]
  rfl

theorem oneDiskS_run :
    (chainRunS 1 1 (10, 10) 0 1 oneDiskS).1.chainTime ≤ 0 := by
  have h1 : chainRunS 1 1 (10, 10) 0 1 oneDiskS =
      ((chainStepS 1 1 (10, 10) 0 oneDiskS).1,
        (chainStepS 1 1 (10, 10) 0 oneDiskS).2 + 0) := by
    show (if 0 < oneDiskS.chainTime then
        ((chainRunS 1 1 (10, 10) 0 0 (chainStepS 1 1 (10, 10) 0 oneDiskS).1).1,
          (chainStepS 1 1 (10, 10) 0 oneDiskS).2 +
            (chainRunS 1 1 (10, 10) 0 0 (chainStepS 1 1 (10, 10) 0 oneDiskS).1).2)
      else (oneDiskS, 0)) =
      ((chainStepS 1 1 (10, 10) 0 oneDiskS).1,
        (chainStepS 1 1 (10, 10) 0 oneDiskS).2 + 0)
    rw [if_pos (show (0 : ℝ) < oneDiskS.chainTime from by norm_num [oneDiskS])]
    rfl
  rw [h1]
  dsimp only
  rw [chainStepS_chainTime, oneDiskS_step_time]
  norm_num [oneDiskS]

/-- Claim C4: in the Newtonian and straight event-chain schedulers, every
selected event time is at most the remaining chain time (the horizon resp.
chain-end candidate is clamped to it), the remaining chain time stays
non-negative throughout the chain, and when the chain loop terminates the sum
of all consumed advance times equals the configured chain duration exactly,
accounting for the final clamped step. -/
theorem c4_chain_budget (n : ℕ) (σ : ℝ) (box : ℝ × ℝ) (direction k kS : ℕ)
    (st : ChainState) (stS : SState)
    (h0 : 0 ≤ st.chainTime) (h0S : 0 ≤ stS.chainTime)
    (hT : (chainRunN n σ box k st).1.chainTime ≤ 0)
    (hTS : (chainRunS n σ box direction kS stS).1.chainTime ≤ 0) :
    (chainStepN n σ box st).2 ≤ st.chainTime ∧
    0 ≤ (chainStepN n σ box st).1.chainTime ∧
    0 ≤ (chainRunN n σ box k st).1.chainTime ∧
    (chainRunN n σ box k st).2 = st.chainTime ∧
    (chainStepS n σ box direction stS).2 ≤ stS.chainTime ∧
    0 ≤ (chainStepS n σ box direction stS).1.chainTime ∧
    0 ≤ (chainRunS n σ box direction kS stS).1.chainTime ∧
    (chainRunS n σ box direction kS stS).2 = stS.chainTime := by
  have hN1 := chainStepN_time_le n σ box st
  have hN3 := chainRunN_nonneg n σ box k st h0
  have hS1 := chainStepS_time_le n σ box direction stS
  have hS3 := chainRunS_nonneg n σ box direction kS stS h0S
  refine ⟨hN1, ?_, hN3, ?_, hS1, ?_, hS3, ?_⟩
  · rw [chainStepN_chainTime]
    linarith
  · rw [chainRunN_consumed, le_antisymm hT hN3]
    ring
  · rw [chainStepS_chainTime]
    linarith
  · rw [chainRunS_consumed, le_antisymm hTS hS3]
    ring

/-- Witness for C4: one disk of radius `1` with unit velocity in a `10 × 10`
box, one chain of duration `1`, which terminates after a single clamped
horizon / chain-end event in both schedulers. -/
theorem c4_chain_budget_witness :
    (0 : ℝ) ≤ oneDiskN.chainTime ∧ (0 : ℝ) ≤ oneDiskS.chainTime ∧
    (chainRunN 1 1 (10, 10) 1 oneDiskN).1.chainTime ≤ 0 ∧
    (chainRunS 1 1 (10, 10) 0 1 oneDiskS).1.chainTime ≤ 0 ∧
    ((chainStepN 1 1 (10, 10) oneDiskN).2 ≤ oneDiskN.chainTime ∧
     0 ≤ (chainStepN 1 1 (10, 10) oneDiskN).1.chainTime ∧
     0 ≤ (chainRunN 1 1 (10, 10) 1 oneDiskN).1.chainTime ∧
     (chainRunN 1 1 (10, 10) 1 oneDiskN).2 = oneDiskN.chainTime ∧
     (chainStepS 1 1 (10, 10) 0 oneDiskS).2 ≤ oneDiskS.chainTime ∧
     0 ≤ (chainStepS 1 1 (10, 10) 0 oneDiskS).1.chainTime ∧
     0 ≤ (chainRunS 1 1 (10, 10) 0 1 oneDiskS).1.chainTime ∧
     (chainRunS 1 1 (10, 10) 0 1 oneDiskS).2 = oneDiskS.chainTime) := by
  have h0 : (0 : ℝ) ≤ oneDiskN.chainTime := by norm_num [oneDiskN]
  have h0S : (0 : ℝ) ≤ oneDiskS.chainTime := by norm_num [oneDiskS]
  exact ⟨h0, h0S, oneDiskN_run, oneDiskS_run,
    c4_chain_budget 1 1 (10, 10) 0 1 1 oneDiskN oneDiskS h0 h0S oneDiskN_run oneDiskS_run⟩

/-- Claim C8: in the straight event-chain scheduler the displacement applied
to the active disk's coordinate in the direction of travel is
`max(event_time, 0)` — a negative event time from floating round-off is
clamped to zero rather than treated as an error — so the displacement is
non-negative and the active disk never moves backward (before re-wrapping). -/
theorem c8_negative_time_clamped (n : ℕ) (σ : ℝ) (box : ℝ × ℝ) (direction : ℕ)
    (st : SState) :
    (chainStepS n σ box direction st).1.pos st.active =
      coordSet (st.pos st.active) direction
        (wrapWhile (coordGet (st.pos st.active) direction +
          max (chainStepS n σ box direction st).2 0) (coordGet box direction)) ∧
    0 ≤ max (chainStepS n σ box direction st).2 0 ∧
    coordGet (st.pos st.active) direction ≤
      coordGet (st.pos st.active) direction +
        max (chainStepS n σ box direction st).2 0 := by
  refine ⟨?_, le_max_right _ _, ?_⟩
  · show Function.update st.pos st.active _ st.active = _
    rw [Function.update_same]
    rfl
  · have := le_max_right (chainStepS n σ box direction st).2 (0 : ℝ)
    linarith

/-- Counterexample to claim C6: in the Newtonian chain state with one disk,
unit speed, `sigma = 1`, `box = (10, 10)` and remaining chain time `1`, the
horizon candidate appended to the event list carries time `1` (the remaining
chain time), not `(min(Lx, Ly)/2 - 2*sigma) / speed = 3` — the candidate is
the clamp `min(chain_time, cutoff / speed)`, not `cutoff / speed` itself. -/
theorem c6_counterexample :
    newtonianEvents 1 1 (10, 10) oneDiskN = [(0, ((1 : ℝ) : WithTop ℝ))] ∧
    cutoff (10, 10) 1 / speed ((1 : ℝ), (0 : ℝ)) = 3 ∧
    (1 : ℝ) ≠ 3 := by
  refine ⟨oneDiskN_events, ?_, by norm_num⟩
  rw [speed_one_zero]
  unfold cutoff
  norm_num

/-- Amended claim C6: the Newtonian scheduler's horizon candidate equals
`min(chain_time, (min(Lx, Ly)/2 - 2*sigma) / speed)` — the quotient
`cutoff / speed` additionally clamped by the remaining chain time — and the
molecular-dynamics scheduler's horizon candidate equals
`(min(Lx, Ly)/2 - 2*sigma) / vel_max / 2` exactly; whenever the horizon event
is the selected minimum, no disk velocity is changed and the Newtonian
scheduler keeps the same active disk. -/
theorem c6_amended (n : ℕ) (σ sampleTime : ℝ) (box : ℝ × ℝ) (st : ChainState)
    (stM : MDState) :
    timeCutoffN st.chainTime box σ (st.vel st.active) =
      min st.chainTime (cutoff box σ / speed (st.vel st.active)) ∧
    newtonianEvents n σ box st =
      ((List.range n).filter (fun target => target ≠ st.active)).map
        (fun target => (target,
          findEventNewtonian (st.pos st.active) (st.pos target) (st.vel st.active) σ box))
      ++ [(st.active, ((timeCutoffN st.chainTime box σ (st.vel st.active) : ℝ) : WithTop ℝ))] ∧
    ((-1, -1, ((cutoff box σ / stM.velMax / 2 : ℝ) : WithTop ℝ)) : ℤ × ℤ × WithTop ℝ) ∈
      mdEvents n σ box stM ∧
    ((selectBy (fun e => e.2) (st.active, ⊤) (newtonianEvents n σ box st)).1 = st.active →
      (chainStepN n σ box st).1.vel = st.vel ∧
      (chainStepN n σ box st).1.active = st.active) ∧
    ((selectBy (fun e => e.2.2) (-1, -1, ⊤) (mdEvents n σ box stM)).1 =
        (selectBy (fun e => e.2.2) (-1, -1, ⊤) (mdEvents n σ box stM)).2.1 →
      (mdStep n σ box sampleTime stM).vel = stM.vel) := by
  refine ⟨rfl, rfl, ?_, ?_, ?_⟩
  · unfold mdEvents
    exact List.mem_append_right _ (List.mem_cons_self _ _)
  · intro h
    constructor
    · simp only [chainStepN]
      rw [if_pos h.symm]
    · simp only [chainStepN]
      rw [if_pos h.symm]
  · intro h
    simp only [mdStep]
    rw [if_neg (not_not_intro h)]
    split
    · rfl
    · rfl

theorem oneDiskMD_events :
    mdEvents 1 1 (10, 10) oneDiskMD =
      [(-1, -1, ((3 / 2 : ℝ) : WithTop ℝ)), (-2, -2, ((2 : ℝ) : WithTop ℝ))] := by
  unfold mdEvents
  rw [show List.range 1 = [0] from rfl]
  rw [show (([0] : List ℕ).bind (fun i =>
      (([0] : List ℕ).filter (fun j => i < j)).map (fun (j : ℕ) =>
        ((i : ℤ), (j : ℤ),
          findEventMD (oneDiskMD.pos i) (oneDiskMD.vel i) (oneDiskMD.pos j)
            (oneDiskMD.vel j) 1 (10, 10))))) = [] by simp]
  rw [List.nil_append]
  rw [show (cutoff (10, 10) 1 / oneDiskMD.velMax / 2 : ℝ) = 3 / 2 by
    unfold cutoff; norm_num [oneDiskMD],
    show oneDiskMD.timeToSample = (2 : ℝ) from rfl]

theorem oneDiskMD_select :
    selectBy (fun e => e.2.2) (-1, -1, ⊤) (mdEvents 1 1 (10, 10) oneDiskMD) =
      (-1, -1, ((3 / 2 : ℝ) : WithTop ℝ)) := by
  rw [oneDiskMD_events]
  show (if ((2 : ℝ) : WithTop ℝ) < ((3 / 2 : ℝ) : WithTop ℝ) then
      ((-2 : ℤ), (-2 : ℤ), ((2 : ℝ) : WithTop ℝ))
    else ((-1 : ℤ), (-1 : ℤ), ((3 / 2 : ℝ) : WithTop ℝ))) =
    ((-1 : ℤ), (-1 : ℤ), ((3 / 2 : ℝ) : WithTop ℝ))
  rw [if_neg]
  intro h
  exact absurd (WithTop.coe_lt_coe.mp h) (by norm_num)

/-- Witness for the amended claim C6: in the one-disk Newtonian state the
horizon is the selected minimum and the step keeps the velocity function and
the active index; in the one-disk molecular-dynamics state the horizon
candidate is selected and the step keeps all velocities. -/
theorem c6_amended_witness :
    (selectBy (fun e => e.2) (oneDiskN.active, ⊤)
      (newtonianEvents 1 1 (10, 10) oneDiskN)).1 = oneDiskN.active ∧
    (chainStepN 1 1 (10, 10) oneDiskN).1.vel = oneDiskN.vel ∧
    (chainStepN 1 1 (10, 10) oneDiskN).1.active = oneDiskN.active ∧
    (selectBy (fun e => e.2.2) (-1, -1, ⊤) (mdEvents 1 1 (10, 10) oneDiskMD)).1 =
      (selectBy (fun e => e.2.2) (-1, -1, ⊤) (mdEvents 1 1 (10, 10) oneDiskMD)).2.1 ∧
    (mdStep 1 1 (10, 10) 5 oneDiskMD).vel = oneDiskMD.vel := by
  have h1 : (selectBy (fun e => e.2) (oneDiskN.active, ⊤)
      (newtonianEvents 1 1 (10, 10) oneDiskN)).1 = oneDiskN.active := by
    rw [oneDiskN_select]
    rfl
  have h2 : (selectBy (fun e => e.2.2) (-1, -1, ⊤) (mdEvents 1 1 (10, 10) oneDiskMD)).1 =
      (selectBy (fun e => e.2.2) (-1, -1, ⊤) (mdEvents 1 1 (10, 10) oneDiskMD)).2.1 := by
    rw [oneDiskMD_select]
  have h := c6_amended 1 1 5 (10, 10) oneDiskN oneDiskMD
  exact ⟨h1, (h.2.2.2.1 h1).1, (h.2.2.2.1 h1).2, h2, h.2.2.2.2 h2⟩

/-- Witness for C5 at a concrete input: `a = (3, 0)`, `b = (0, 0)`,
`box = (4, 4)`, image shift `(0, 0)`. -/
theorem c5_separation_vector_minimal_witness :
    (0 : ℝ) < (4 : ℝ) ∧ ((0 : ℤ)).natAbs ≤ 1 ∧
    (|(separation_vector (3, 0) (0, 0) (4, 4)).1| ≤ (4 : ℝ) / 2 ∧
     |(separation_vector (3, 0) (0, 0) (4, 4)).2| ≤ (4 : ℝ) / 2 ∧
     Real.sqrt ((separation_vector (3, 0) (0, 0) (4, 4)).1 ^ 2 +
         (separation_vector (3, 0) (0, 0) (4, 4)).2 ^ 2) ≤
       Real.sqrt (((3 : ℝ) - 0 + ((0 : ℤ) : ℝ) * 4) ^ 2 + ((0 : ℝ) - 0 + ((0 : ℤ) : ℝ) * 4) ^ 2)) := by
  refine ⟨by norm_num, by norm_num, ?_⟩
  exact c5_separation_vector_minimal (3, 0) (0, 0) (4, 4) 0 0 (by norm_num) (by norm_num)
    (by norm_num) (by norm_num)

end
